import Mathlib

/-!
Verification development for the ai-dev-orchestrator core (Electron main
process, `src/main/main.ts`, plus the shared plan schema in
`src/shared/protocol.ts`).

The effectful TypeScript code is shallowly embedded as pure Lean functions.
Child-process results, git-query outputs and decision deliveries are
supplied by explicit environment records, so each run of the embedded
executor is a deterministic function of the plan and the environment.
Machine integers do not occur (exit codes are small signed values, modelled
as `Int`); strings are modelled as Lean `String`.
-/

namespace Orchestrator

/-- JS `String.prototype.trimStart` (leading whitespace removed), modelled
on the character list so that it evaluates inside the kernel. -/
def jsTrimLeft (s : String) : String :=
  String.mk (s.data.dropWhile Char.isWhitespace)

/-- JS `String.prototype.trim` (leading and trailing whitespace removed),
modelled on the character list so that it evaluates inside the kernel. -/
def jsTrim (s : String) : String :=
  String.mk (((s.data.dropWhile Char.isWhitespace).reverse.dropWhile Char.isWhitespace).reverse)

/-- JS `String.prototype.includes`: substring containment on the raw string. -/
def strIncludes (s sub : String) : Bool :=
  decide (sub.data <:+: s.data)

/-- JS `String.prototype.startsWith` on the raw string. -/
def strStartsWith (s pre : String) : Bool :=
  pre.data.isPrefixOf s.data

/-- JS `String.prototype.endsWith` on the raw string. -/
def strEndsWith (s suf : String) : Bool :=
  suf.data.isSuffixOf s.data

/-- `const ALLOWED_COMMAND_PREFIXES = ["git"]` (main.ts). -/
def ALLOWED_COMMAND_PREFIXES : List String := ["git"]

/-- `const ALLOWED_EXECUTOR_TOOLS = new Set(["codex"])` (main.ts). -/
def ALLOWED_EXECUTOR_TOOLS : List String := ["codex"]

/-- `const DEPENDENCY_FILES = new Set([...])` (main.ts). -/
def DEPENDENCY_FILES : List String :=
  ["package.json", "package-lock.json", "yarn.lock", "pnpm-lock.yaml"]

/-- main.ts: `isCommandAllowed = (command) =>
ALLOWED_COMMAND_PREFIXES.some((prefix) => command.startsWith(prefix))`.
Note: no trim and no word-boundary check in the source. -/
def isCommandAllowed (command : String) : Bool :=
  ALLOWED_COMMAND_PREFIXES.any (fun p => strStartsWith command p)

/-- main.ts: `isExecutorToolAllowed = (tool) => ALLOWED_EXECUTOR_TOOLS.has(tool)`. -/
def isExecutorToolAllowed (tool : String) : Bool :=
  ALLOWED_EXECUTOR_TOOLS.contains tool

/-- The eight forbidden sequences from `hasForbiddenShellOperators` (main.ts). -/
def forbiddenOps : List String := ["||", "&&", "|", ">", "<", ";", "$(", "`"]

/-- main.ts: `hasForbiddenShellOperators = (command) =>
forbidden.some((op) => command.includes(op))`. -/
def hasForbiddenShellOperators (command : String) : Bool :=
  forbiddenOps.any (fun op => strIncludes command op)

/-- Claim-side predicate (from the specification's words, *not* from the
source): the command, after leading-whitespace trim, must begin with the
allowed token `git` followed by a word boundary (end of string or a
non-word character). Used only to compare against `isCommandAllowed`. -/
def specCommandAllowed (s : String) : Bool :=
  match (jsTrimLeft s).data with
  | 'g' :: 'i' :: 't' :: rest =>
    match rest with
    | [] => true
    | c :: _ => !(c.isAlphanum || c == '_')
  | _ => false

/-! ## Plan model (src/shared/protocol.ts) -/

/-- `PlanStepSchema`: tagged variant with `cmd`, `note`, `executor` shapes.
The executor tool enum is kept as a `String` checked by `schemaToolOk`. -/
inductive PlanStep where
  | note (message : String)
  | cmd (command : String)
  | executor (tool : String) (instructions : String)
deriving DecidableEq, Repr

/-- `TaskPlanSchema = z.object({ plan_name: z.string(), steps: z.array(PlanStepSchema) })`. -/
structure TaskPlan where
  plan_name : String
  steps : List PlanStep
deriving DecidableEq, Repr

/-- The `z.enum(["codex", "claude_code"])` constraint of the schema, the one
shape constraint not already enforced by the typed embedding. -/
def schemaToolOk (step : PlanStep) : Bool :=
  match step with
  | .executor tool _ => tool == "codex" || tool == "claude_code"
  | _ => true

/-- The schema part of plan validation on the typed embedding: all executor
tools belong to the closed enum (all other shape checks are enforced by the
Lean types themselves). -/
def schemaAccepts (plan : TaskPlan) : Bool :=
  plan.steps.all schemaToolOk

/-! ## Pure helpers of main.ts -/

/-- Splitter for the regex `/\r?\n/`: a `\r\n` pair or a lone `\n` ends a
line; a `\r` not followed by `\n` stays in the line. -/
def splitLinesGo : List Char → List Char → List (List Char)
  | [], acc => [acc.reverse]
  | '\r' :: '\n' :: rest, acc => acc.reverse :: splitLinesGo rest []
  | '\n' :: rest, acc => acc.reverse :: splitLinesGo rest []
  | c :: rest, acc => splitLinesGo rest (c :: acc)

/-- `value.split(/\r?\n/)` on a JS string. -/
def splitLines (value : String) : List String :=
  (splitLinesGo value.data []).map (fun cs => String.mk cs)

/-- main.ts `parseNameOnly`: split on `/\r?\n/`, trim each line, drop empty
lines (`filter(Boolean)`). -/
def parseNameOnly (value : String) : List String :=
  ((splitLines value).map jsTrim).filter (fun line => !line.isEmpty)

/-- The per-path dependency test of main.ts `matchDependencyFiles`:
`file === depFile || file.endsWith("/" + depFile)` for some configured
dependency file name. -/
def isDependencyPath (file : String) : Bool :=
  DEPENDENCY_FILES.any (fun dep => file == dep || strEndsWith file ("/" ++ dep))

/-- One iteration of the `matchDependencyFiles` loop: add the file to the
matched set (first-occurrence order, deduplicated) when it matches a
dependency file name. -/
def depStep (acc : List String) (file : String) : List String :=
  if isDependencyPath file && !(acc.contains file) then acc ++ [file] else acc

/-- main.ts `matchDependencyFiles`: walk `files` in order, collect into a
`Set` (modelled as first-occurrence-order dedup) the files matching some
dependency file name, and return the set as an array. -/
def matchDependencyFiles (files : List String) : List String :=
  files.foldl depStep []

/-- main.ts `diffFromBaseline`: `current.filter((file) => !baselineSet.has(file))`;
the set difference preserves the order of `current`. -/
def diffFromBaseline (baseline current : List String) : List String :=
  current.filter (fun file => !(baseline.contains file))

/-- main.ts `buildRetryInstructions`: the fixed minimal-change retry prompt. -/
def buildRetryInstructions : String :=
  String.intercalate " "
    [ "ONLY edit src/renderer/App.tsx.",
      "Ensure that after applying changes, `git diff --name-only` is non-empty and includes src/renderer/App.tsx.",
      "If the feature already exists, do not duplicate UI; make a minimal fix to behavior or wiring so a real diff is produced.",
      "Do not add dependencies; do not modify package.json/lockfiles; do not run npm install." ]

/-- main.ts `splitArgs`: POSIX-style argv splitter. State: remaining
characters, current token (in order), open quote, pending escape. Tokens are
flushed at unquoted whitespace and at end of input, and only when non-empty. -/
def splitArgsGo : List Char → List Char → Option Char → Bool → List (List Char)
  | [], current, _, _ => if current.isEmpty then [] else [current]
  | c :: rest, current, quote, escape =>
    if escape then splitArgsGo rest (current ++ [c]) quote false
    else
      match quote with
      | some q =>
        if q == '"' then
          if c == '\\' then splitArgsGo rest current quote true
          else if c == '"' then splitArgsGo rest current none false
          else splitArgsGo rest (current ++ [c]) quote false
        else
          if c == '\'' then splitArgsGo rest current none false
          else splitArgsGo rest (current ++ [c]) quote false
      | none =>
        if c == '\'' || c == '"' then splitArgsGo rest current (some c) false
        else if c == '\\' then splitArgsGo rest current none true
        else if c.isWhitespace then
          if current.isEmpty then splitArgsGo rest [] none false
          else current :: splitArgsGo rest [] none false
        else splitArgsGo rest (current ++ [c]) none false

/-- main.ts `splitArgs` on a string. -/
def splitArgs (command : String) : List String :=
  (splitArgsGo command.data [] none false).map (fun cs => String.mk cs)

/-! ## Plan validation (main.ts `validateGeneratedPlan`) -/

/-- The issues one step contributes in the per-step loop of
`validateGeneratedPlan` (only `cmd` steps contribute). -/
def cmdStepIssues (step : PlanStep) : List String :=
  match step with
  | .cmd command =>
    let c := jsTrim command
    if c.isEmpty then ["cmd.command cannot be empty"]
    else if !(isCommandAllowed c) then ["cmd.command not allowed: " ++ c]
    else []
  | _ => []

/-- main.ts `validateGeneratedPlan`: collects issues (step count, note
presence, per-cmd checks) in source order; the source throws iff the list is
non-empty. Note: the plan name is never inspected. -/
def validateGeneratedPlan (plan : TaskPlan) : List String :=
  (if plan.steps.length > 8 then ["plan must have at most 8 steps"] else []) ++
  (if !(plan.steps.any (fun s => match s with | .note _ => true | _ => false))
     then ["plan must include at least 1 note step"] else []) ++
  (plan.steps.map cmdStepIssues).flatten

/-- The complete validator applied to planner output and user-edited plans:
`TaskPlanSchema.parse` followed by `validateGeneratedPlan` (accepted iff no
issue is raised). -/
def planValidatorAccepts (plan : TaskPlan) : Bool :=
  schemaAccepts plan && (validateGeneratedPlan plan).isEmpty

/-- Claim-side validator predicate (from the specification's words, *not*
from the source): name non-empty after trim, steps non-empty with at most 8
elements and at least one note, and every cmd command non-empty after trim
and allowlisted. Used only to compare against `planValidatorAccepts`. -/
def specValidatorAccepts (plan : TaskPlan) : Bool :=
  !((jsTrim plan.plan_name).isEmpty) &&
  !(plan.steps.isEmpty) &&
  plan.steps.length ≤ 8 &&
  plan.steps.any (fun s => match s with | .note _ => true | _ => false) &&
  plan.steps.all (fun s =>
    match s with
    | .cmd command => !((jsTrim command).isEmpty) && isCommandAllowed (jsTrim command)
    | _ => true)

/-! ## Child processes, evidence, decision gate -/

/-- Resolution of one supervised child process (`runCommandStreaming` /
`runExecutorCommand` / `runCommandCapture`): exit code, cooperative flags and
captured output. `error` is set on spawn failure. Values are supplied by the
environment; the Lean model consumes them. -/
structure ChildResult where
  exitCode : Int := 0
  cancelled : Bool := false
  timedOut : Bool := false
  stdout : String := ""
  stderr : String := ""
  error : Option String := none
deriving DecidableEq, Repr

/-- Result of one captured (non-streaming) git query (`runCommandCapture`). -/
structure GitResult where
  code : Int := 0
  stdout : String := ""
  stderr : String := ""
deriving DecidableEq, Repr

/-- Environment for one `collectGitEvidence` call: the results of the three
read-only git queries, in the source's fixed order. -/
structure EvidenceEnv where
  statusRes : GitResult := {}
  diffStatRes : GitResult := {}
  nameOnlyRes : GitResult := {}
deriving DecidableEq, Repr

/-- The value `collectGitEvidence` produces: either the mapping from the
three stable keys to each query's stdout, or `{ error: reason }`. -/
inductive Evidence where
  | ok (git_status_porcelain git_diff_stat git_diff_name_only : String)
  | err (message : String)
deriving DecidableEq, Repr

/-- main.ts `collectGitEvidence`: guard on the command allowlist, then run
the three queries in sequence, stopping with an error block at the first
non-zero exit. -/
def collectGitEvidence (env : EvidenceEnv) : Evidence :=
  if !(isCommandAllowed "git") then .err "Command not allowed by policy"
  else if env.statusRes.code ≠ 0 then .err "git status --porcelain failed"
  else if env.diffStatRes.code ≠ 0 then .err "git diff --stat failed"
  else if env.nameOnlyRes.code ≠ 0 then .err "git diff --name-only failed"
  else .ok env.statusRes.stdout env.diffStatRes.stdout env.nameOnlyRes.stdout

/-- A decision delivered to a synchronous waiter via `submitDecision` (or
`rejected` forced by cancellation). -/
inductive Answer where
  | approved
  | rejected
deriving DecidableEq, Repr

/-- What `maybeRequestDecision` returns: `null` is `none`. -/
inductive GateResult where
  | approved
  | rejected
  | pending
deriving DecidableEq, Repr

/-- Events sent over the renderer channel (payload runId omitted: the model
works within a single run). -/
inductive Event where
  | runOutput (source : String) (text : String)
  | runDecision (files : List String)
  | runCancelled
deriving DecidableEq, Repr

/-- Output of one `maybeRequestDecision` call: its return value, the events
it emitted, and the pending-decision map after the call. -/
structure GateOut where
  result : Option GateResult
  events : List Event
  pending : List (String × List String)
deriving DecidableEq, Repr

/-- main.ts `maybeRequestDecision`. On an evidence error it returns `null`
at once (no event, no pending record). Otherwise it parses the name-only
output, matches dependency files, and either returns `null` (no match),
records a pending decision and returns `"pending"` (autobuild mode), or
waits for a decision (synchronous mode; the waiter is inserted and then
removed by the deliverer, so the map is unchanged after the wait — the
delivered answer is supplied by the environment as `answer`). -/
def maybeRequestDecision (evidence : Evidence) (runId : String)
    (pendingMap : List (String × List String)) (awaitDecision : Bool)
    (answer : Answer) : GateOut :=
  match evidence with
  | .err _ => ⟨none, [], pendingMap⟩
  | .ok _ _ nameOnly =>
    if nameOnly.isEmpty then ⟨none, [], pendingMap⟩
    else
      let changedFiles := parseNameOnly nameOnly
      let dependencyFiles := matchDependencyFiles changedFiles
      if dependencyFiles.isEmpty then ⟨none, [], pendingMap⟩
      else
        let evs : List Event :=
          [ .runOutput "system"
              ("Dependency changes detected. Awaiting approval: " ++
                String.intercalate ", " dependencyFiles ++ "\n"),
            .runDecision dependencyFiles ]
        if !awaitDecision then
          ⟨some .pending, evs, pendingMap ++ [(runId, dependencyFiles)]⟩
        else
          match answer with
          | .approved => ⟨some .approved, evs, pendingMap⟩
          | .rejected => ⟨some .rejected, evs, pendingMap⟩

/-! ## Run executor (main.ts `runPlanInternal`) -/

/-- The per-executor-step evaluation record. In the source,
`suspicious_no_change` and `no_op` are only *assigned* when true; reading an
absent field is falsy, so they are modelled as `Bool` fields whose value is
the assignment condition. -/
structure RetryResult where
  exit_code : Int
  baseline_files : List String
  current_files : List String
  changed_files : List String
  has_changes : Bool
deriving DecidableEq, Repr

/-- The `evaluation` object attached to an executor step record. -/
structure Evaluation where
  baseline_files : List String
  current_files : List String
  changed_files : List String
  has_changes : Bool
  retried : Bool
  suspicious_no_change : Bool
  no_op : Bool
  retry_result : Option RetryResult := none
deriving DecidableEq, Repr

/-- One element of `runMeta.steps`. Fields that a branch never assigns stay
at their defaults (`none` / `false`). -/
structure StepRecord where
  step_index : Nat
  type : String
  exit_code : Option Int := none
  cancelled : Option Bool := none
  timeout : Option Bool := none
  blocked_by_policy : Bool := false
  evaluation : Option Evaluation := none
  evidence : Option Evidence := none
deriving DecidableEq, Repr

/-- Environment for one step of the run loop: whether a cancel request was
observed at the loop head, the supervised children's results, the git query
results and the decision delivery for this step. Unused fields are ignored
by the branch actually taken. -/
structure StepEnv where
  cancelBeforeStep : Bool := false
  cmdResult : ChildResult := {}
  evidenceEnv : EvidenceEnv := {}
  baselineDiff : GitResult := {}
  execRes : ChildResult := {}
  applyRes : ChildResult := {}
  noOpGrep : GitResult := {}
  retryExecRes : ChildResult := {}
  retryApplyRes : ChildResult := {}
  retryDiff : GitResult := {}
  retryEvidenceEnv : EvidenceEnv := {}
  decisionAnswer : Answer := .approved
  cancelAfterDecision : Bool := false
deriving Repr

/-- main.ts `runExecutorStreaming`: the two-phase executor invocation —
propose (`exec`), then `apply` only if the propose child exited 0 without
cancellation, timeout or spawn error. -/
def runExecutorStreaming (execRes applyRes : ChildResult) : ChildResult :=
  if execRes.exitCode ≠ 0 || execRes.cancelled || execRes.timedOut || execRes.error.isSome
  then execRes else applyRes

/-- Mutable state threaded through the step loop of `runPlanInternal`,
extended with audit traces (`spawned`, `executorInvocations`, `noOpLogs`)
that record which children the loop launched. -/
structure LoopState where
  lastExitCode : Int := 0
  blockedByPolicy : Bool := false
  timedOut : Bool := false
  cancelled : Bool := false
  cancelledByDecision : Bool := false
  decisionPending : Bool := false
  lastExecutorEvaluation : Option Evaluation := none
  lastPrecheckHit : Bool := false
  records : List StepRecord := []
  pending : List (String × List String) := []
  spawned : List (Nat × String) := []
  executorInvocations : List (Nat × String) := []
  noOpLogs : List String := []
deriving Repr

/-- Result of the executor-step body (main.ts lines after the tool-allowlist
check): record, evaluation, the result the surrounding loop inspects, the
final evidence, the instruction strings passed to the executor tool, and the
texts logged by the no-op branch. -/
structure ExecCore where
  record : StepRecord
  evaluation : Evaluation
  finalResult : ChildResult
  finalEvidence : Evidence
  invocations : List String
  noOpLogs : List String
deriving DecidableEq, Repr

/-- The baseline capture before an executor step: `git diff --name-only`,
parsed when the query exited 0 with non-empty stdout, else `[]`. -/
def baselineFilesOf (e : StepEnv) : List String :=
  if e.baselineDiff.code = 0 && !e.baselineDiff.stdout.isEmpty
  then parseNameOnly e.baselineDiff.stdout else []

/-- The fresh `git diff --name-only` re-run after the retry invocation,
parsed under the same success condition. -/
def retryDiffFilesOf (e : StepEnv) : List String :=
  if e.retryDiff.code = 0 && !e.retryDiff.stdout.isEmpty
  then parseNameOnly e.retryDiff.stdout else []

/-- `current_files`: the name-only output of the post-step evidence, parsed;
empty on an evidence error. -/
def currentFilesOf (e : StepEnv) : List String :=
  match collectGitEvidence e.evidenceEnv with
  | .ok _ _ nameOnly => parseNameOnly nameOnly
  | .err _ => []

/-- The executor-step body of `runPlanInternal` (tool already allowed):
capture the baseline, run the two-phase executor, re-collect evidence,
compute the baseline diff and its classification, then either log the no-op
precheck grep, or retry once with the fixed minimal-change instructions, or
do nothing more. -/
def execStepCore (e : StepEnv) (lastPrecheckHit : Bool) (instructions : String)
    (stepIndex : Nat) : ExecCore :=
  let baselineFiles := baselineFilesOf e
  let result := runExecutorStreaming e.execRes e.applyRes
  let evidence := collectGitEvidence e.evidenceEnv
  let currentFiles := currentFilesOf e
  let changedFiles := diffFromBaseline baselineFiles currentFiles
  let hasChanges := !changedFiles.isEmpty
  let suspicious := result.exitCode == 0 && !hasChanges
  let noOp := result.exitCode == 0 && lastPrecheckHit && !hasChanges
  if noOp then
    let logs :=
      (if e.noOpGrep.stdout.isEmpty then [] else [e.noOpGrep.stdout]) ++
      (if e.noOpGrep.stderr.isEmpty then [] else [e.noOpGrep.stderr])
    let evaluation : Evaluation :=
      { baseline_files := baselineFiles, current_files := currentFiles,
        changed_files := changedFiles, has_changes := hasChanges,
        retried := false, suspicious_no_change := suspicious, no_op := true }
    let record : StepRecord :=
      { step_index := stepIndex, type := "executor",
        exit_code := some result.exitCode, cancelled := some result.cancelled,
        timeout := some result.timedOut, evaluation := some evaluation,
        evidence := some evidence }
    { record := record, evaluation := evaluation, finalResult := result,
      finalEvidence := evidence, invocations := [instructions], noOpLogs := logs }
  else if suspicious then
    let retryResult := runExecutorStreaming e.retryExecRes e.retryApplyRes
    let retryCurrent := retryDiffFilesOf e
    let retryChanged := diffFromBaseline baselineFiles retryCurrent
    let retryHasChanges := !retryChanged.isEmpty
    let finalEvidence := collectGitEvidence e.retryEvidenceEnv
    let retryRec : RetryResult :=
      { exit_code := retryResult.exitCode, baseline_files := baselineFiles,
        current_files := retryCurrent, changed_files := retryChanged,
        has_changes := retryHasChanges }
    let evaluation : Evaluation :=
      { baseline_files := baselineFiles, current_files := currentFiles,
        changed_files := changedFiles, has_changes := hasChanges,
        retried := true, suspicious_no_change := true, no_op := false,
        retry_result := some retryRec }
    let record : StepRecord :=
      { step_index := stepIndex, type := "executor",
        exit_code := some retryResult.exitCode, cancelled := some retryResult.cancelled,
        timeout := some retryResult.timedOut, evaluation := some evaluation,
        evidence := some finalEvidence }
    { record := record, evaluation := evaluation, finalResult := retryResult,
      finalEvidence := finalEvidence, invocations := [instructions, buildRetryInstructions],
      noOpLogs := [] }
  else
    let evaluation : Evaluation :=
      { baseline_files := baselineFiles, current_files := currentFiles,
        changed_files := changedFiles, has_changes := hasChanges,
        retried := false, suspicious_no_change := suspicious, no_op := false }
    let record : StepRecord :=
      { step_index := stepIndex, type := "executor",
        exit_code := some result.exitCode, cancelled := some result.cancelled,
        timeout := some result.timedOut, evaluation := some evaluation,
        evidence := some evidence }
    { record := record, evaluation := evaluation, finalResult := result,
      finalEvidence := evidence, invocations := [instructions], noOpLogs := [] }

/-- Shared shape of the three policy-blocked branches of `runPlanInternal`
(command not allowed, forbidden shell operators, executor tool not allowed):
log, mark the step and run as blocked with exit code `-1`, still collect
evidence, offer a decision opportunity, and end the run. -/
def blockedStep (awaitDecision : Bool) (runId : String) (e : StepEnv) (index : Nat)
    (stepType : String) (st : LoopState) : LoopState × Bool :=
  let evidence := collectGitEvidence e.evidenceEnv
  let record : StepRecord :=
    { step_index := index + 1, type := stepType, blocked_by_policy := true,
      exit_code := some (-1), evidence := some evidence }
  let st1 :=
    { st with
        blockedByPolicy := true, lastExitCode := -1,
        records := st.records ++ [record] }
  let gate := maybeRequestDecision evidence runId st1.pending awaitDecision e.decisionAnswer
  let st2 :=
    { st1 with
        pending := gate.pending,
        decisionPending := st1.decisionPending || (gate.result == some .pending) }
  (st2, false)

/-- The `note` branch of the step loop: log `Note: <message>`, append the
record, clear the precheck-hit flag, continue. -/
def processNote (index : Nat) (st : LoopState) : LoopState × Bool :=
  let record : StepRecord := { step_index := index + 1, type := "note" }
  ({ st with records := st.records ++ [record], lastPrecheckHit := false }, true)

/-- Shared post-step decision-gate handling for non-blocked `cmd` and
`executor` steps (main.ts: the `maybeRequestDecision` call and the
`pending` / `rejected` / `activePlan.cancelled` checks that follow it). -/
def gateAfterStep (awaitDecision : Bool) (runId : String) (e : StepEnv)
    (evidence : Evidence) (st : LoopState) : LoopState × Bool :=
  let gate := maybeRequestDecision evidence runId st.pending awaitDecision e.decisionAnswer
  let st1 := { st with pending := gate.pending }
  match gate.result with
  | some .pending => ({ st1 with decisionPending := true }, false)
  | some .rejected => ({ st1 with cancelledByDecision := true }, false)
  | some .approved =>
    if e.cancelAfterDecision then ({ st1 with cancelled := true, lastExitCode := -1 }, false)
    else (st1, true)
  | none => (st1, true)

/-- The precheck probe test of the `cmd` branch (main.ts): the command
starts with `git grep` and mentions both the probe literal and the renderer
file. -/
def isPrecheckCommand (command : String) : Bool :=
  strStartsWith command "git grep" && strIncludes command "Clear Logs" &&
    strIncludes command "src/renderer/App.tsx"

/-- The normal `cmd` body (policy checks already passed): tokenize,
supervise (recording the spawn), track the precheck hit, compute the
effective exit code, collect evidence, append the record, then stop on
failure or run the decision gate. -/
def cmdNormalStep (awaitDecision : Bool) (runId : String) (e : StepEnv) (index : Nat)
    (command : String) (st : LoopState) : LoopState × Bool :=
  match splitArgs command with
  | [] =>
    let record : StepRecord := { step_index := index + 1, type := "cmd", exit_code := some (-1) }
    ({ st with lastExitCode := -1, records := st.records ++ [record] }, false)
  | _bin :: _args =>
    let result := e.cmdResult
    let stdout := jsTrim result.stdout
    let isGrep := strStartsWith command "git grep"
    let isGrepNoMatch := isGrep && result.exitCode == 1
    let effectiveExitCode := if isGrepNoMatch then 0 else result.exitCode
    let newPrecheckHit := isPrecheckCommand command && !stdout.isEmpty
    let evidence := collectGitEvidence e.evidenceEnv
    let record : StepRecord :=
      { step_index := index + 1, type := "cmd", exit_code := some result.exitCode,
        cancelled := some result.cancelled, timeout := some result.timedOut,
        evidence := some evidence }
    let st1 :=
      { st with
          spawned := st.spawned ++ [(index + 1, command)],
          lastPrecheckHit := newPrecheckHit,
          cancelled := st.cancelled || result.cancelled,
          timedOut := st.timedOut || (!result.cancelled && result.timedOut),
          lastExitCode := effectiveExitCode,
          records := st.records ++ [record] }
    if result.cancelled || result.timedOut || effectiveExitCode ≠ 0 then (st1, false)
    else gateAfterStep awaitDecision runId e evidence st1

/-- The `cmd` branch of the step loop: allowlist check, forbidden-operator
check, then the normal body. -/
def processCmd (awaitDecision : Bool) (runId : String) (e : StepEnv) (index : Nat)
    (command : String) (st : LoopState) : LoopState × Bool :=
  if !(isCommandAllowed command) then
    blockedStep awaitDecision runId e index "cmd" st
  else if hasForbiddenShellOperators command then
    blockedStep awaitDecision runId e index "cmd" st
  else
    cmdNormalStep awaitDecision runId e index command st

/-- The executor body once the tool allowlist check passed: `execStepCore`,
flag updates, record append, precheck-flag clear, and the decision gate on
success. -/
def execAllowedStep (awaitDecision : Bool) (runId : String) (e : StepEnv) (index : Nat)
    (instructions : String) (st : LoopState) : LoopState × Bool :=
    let core := execStepCore e st.lastPrecheckHit instructions (index + 1)
    let st1 :=
      { st with
          executorInvocations :=
            st.executorInvocations ++ core.invocations.map (fun s => (index + 1, s)),
          noOpLogs := st.noOpLogs ++ core.noOpLogs,
          cancelled := st.cancelled || core.finalResult.cancelled,
          timedOut := st.timedOut || (!core.finalResult.cancelled && core.finalResult.timedOut),
          lastExitCode := core.finalResult.exitCode,
          lastExecutorEvaluation := some core.evaluation,
          lastPrecheckHit := false,
          records := st.records ++ [core.record] }
    if core.finalResult.cancelled || core.finalResult.timedOut || core.finalResult.exitCode ≠ 0
    then (st1, false)
    else gateAfterStep awaitDecision runId e core.finalEvidence st1

/-- The `executor` branch of the step loop: tool allowlist, then the allowed
body. -/
def processExec (awaitDecision : Bool) (runId : String) (e : StepEnv) (index : Nat)
    (tool instructions : String) (st : LoopState) : LoopState × Bool :=
  if !(isExecutorToolAllowed tool) then
    blockedStep awaitDecision runId e index "executor" st
  else
    execAllowedStep awaitDecision runId e index instructions st

/-- One iteration body of the step loop (after the loop-head cancel check):
dispatch on the step type. The second component is `true` iff the loop
continues to the next step. -/
def processStep (awaitDecision : Bool) (runId : String) (e : StepEnv) (index : Nat)
    (step : PlanStep) (st : LoopState) : LoopState × Bool :=
  match step with
  | .note _ => processNote index st
  | .cmd command => processCmd awaitDecision runId e index command st
  | .executor tool instructions => processExec awaitDecision runId e index tool instructions st

/-- The step loop of `runPlanInternal`: at each head, first observe the
cancel flag (here: the environment's `cancelBeforeStep`), then process the
step and either continue or stop. -/
def runStepsGo (awaitDecision : Bool) (runId : String) (env : Nat → StepEnv) :
    List PlanStep → Nat → LoopState → LoopState
  | [], _, st => st
  | step :: rest, index, st =>
    if (env index).cancelBeforeStep then
      { st with cancelled := true, lastExitCode := -1 }
    else
      let out := processStep awaitDecision runId (env index) index step st
      if out.2 then runStepsGo awaitDecision runId env rest (index + 1) out.1 else out.1

/-- The post-loop view of a run: the fields written to `runMeta` at run end
plus the result object returned to the caller and the audit traces. The
model is a total function: policy violations, timeouts and cancellations end
the run normally, they are never raised. -/
structure RunOutcome where
  exitCode : Int
  blocked_by_policy : Bool
  timeout : Bool
  cancelled : Bool
  cancelled_by_decision : Bool
  decision_pending : Bool
  steps : List StepRecord
  lastExecutorEvaluation : Option Evaluation
  spawned : List (Nat × String)
  executorInvocations : List (Nat × String)
  noOpLogs : List String
deriving Repr

/-- main.ts `runPlanInternal` after admission: run the step loop from a
fresh state and package the final state the way the source writes `runMeta`
and builds its return value. -/
def runPlanInternal (plan : TaskPlan) (env : Nat → StepEnv) (awaitDecision : Bool) :
    RunOutcome :=
  let st := runStepsGo awaitDecision "run" env plan.steps 0 {}
  { exitCode := st.lastExitCode, blocked_by_policy := st.blockedByPolicy,
    timeout := st.timedOut, cancelled := st.cancelled,
    cancelled_by_decision := st.cancelledByDecision,
    decision_pending := st.decisionPending, steps := st.records,
    lastExecutorEvaluation := st.lastExecutorEvaluation,
    spawned := st.spawned, executorInvocations := st.executorInvocations,
    noOpLogs := st.noOpLogs }

/-! ## Planner client (main.ts `generatePlanFromRequirement`) -/

/-- main.ts `planHasForbiddenCmdOps`: some cmd step's command contains a
forbidden shell operator. -/
def planHasForbiddenCmdOps (plan : TaskPlan) : Bool :=
  plan.steps.any (fun step =>
    match step with
    | .cmd command => hasForbiddenShellOperators command
    | _ => false)

/-- The `retryHint` string of `generatePlanFromRequirement` appended to the
user prompt on the single retry. -/
def retryHint : String :=
  "Reminder: cmd runner uses spawn(shell=false); do NOT output any shell operators. " ++
  "For git grep, exit 1 (no matches) is treated as success; do NOT append \x27|| true\x27."

/-- What one completion-endpoint call produced, as far as the planner logic
can see after content normalization, JSON extraction and the schema parse:
an upstream HTTP error, missing content, a JSON extraction/parse error, a
schema violation, or a schema-valid plan. Supplied by the environment,
indexed by attempt number. -/
inductive AttemptResult where
  | httpError (message : String)
  | emptyContent
  | parseError (message : String)
  | schemaError (message : String)
  | plan (p : TaskPlan)
deriving DecidableEq, Repr

/-- The outcome `generatePlan` surfaces to its caller. -/
inductive PlanResult where
  | ok (plan : TaskPlan)
  | error (message : String)
deriving DecidableEq, Repr

/-- Result of `generatePlanFromRequirement` together with the user prompts
actually sent, in order (one entry per completion call made). -/
structure PlannerOut where
  result : PlanResult
  prompts : List String
deriving DecidableEq, Repr

/-- The shared per-attempt tail of `generatePlanFromRequirement` once the
attempt produced a schema-valid plan: policy validation
(`validateGeneratedPlan`, thrown when non-empty), then the forbidden
operator check, whose outcome is attempt-dependent (`onForbidden`). -/
def plannerAcceptPlan (plan : TaskPlan) (prompts : List String)
    (onForbidden : PlannerOut) : PlannerOut :=
  if !(validateGeneratedPlan plan).isEmpty then
    ⟨.error (String.intercalate "; " (validateGeneratedPlan plan)), prompts⟩
  else if planHasForbiddenCmdOps plan then onForbidden
  else ⟨.ok plan, prompts⟩

/-- main.ts `generatePlanFromRequirement`: the `for (attempt = 0; attempt < 2)`
loop, unrolled (the bound is the literal 2 in the source). Attempt 0 uses
the base user prompt; only a forbidden-operator outcome triggers attempt 1,
whose prompt is the base prompt with `retryHint` appended after a newline;
every other failure is thrown immediately. On the second forbidden-operator
outcome the call fails with the fixed error message. -/
def generatePlanFromRequirement (env : Nat → AttemptResult)
    (baseUserPrompt : String) : PlannerOut :=
  let prompt0 := baseUserPrompt
  let prompts0 := [prompt0]
  match env 0 with
  | .httpError m => ⟨.error m, prompts0⟩
  | .emptyContent => ⟨.error "OpenAI response missing content", prompts0⟩
  | .parseError m => ⟨.error ("Planner JSON parse error: " ++ m), prompts0⟩
  | .schemaError m => ⟨.error ("Plan schema validation failed: " ++ m), prompts0⟩
  | .plan plan0 =>
    plannerAcceptPlan plan0 prompts0
      (let prompt1 := baseUserPrompt ++ "\n" ++ retryHint
       let prompts1 := [prompt0, prompt1]
       match env 1 with
       | .httpError m => ⟨.error m, prompts1⟩
       | .emptyContent => ⟨.error "OpenAI response missing content", prompts1⟩
       | .parseError m => ⟨.error ("Planner JSON parse error: " ++ m), prompts1⟩
       | .schemaError m => ⟨.error ("Plan schema validation failed: " ++ m), prompts1⟩
       | .plan plan1 =>
         plannerAcceptPlan plan1 prompts1
           ⟨.error "Planner output includes forbidden shell operators in cmd steps. Remove shell operators manually and retry.", prompts1⟩)

/-! ## Autobuild controller (main.ts `autobuild:start` handler) -/

/-- The fields of `runPlanInternal`'s result that the autobuild loop
inspects. -/
structure RunResultView where
  exitCode : Int := 0
  cancelled : Bool := false
  decisionPending : Bool := false
  lastExecutorEvaluation : Option Evaluation := none
deriving DecidableEq, Repr

/-- `evaluation?.no_op === true` on a run result. -/
def evalNoOp (r : RunResultView) : Bool :=
  match r.lastExecutorEvaluation with
  | some ev => ev.no_op
  | none => false

/-- `evaluation?.suspicious_no_change === true` on a run result. -/
def evalSuspicious (r : RunResultView) : Bool :=
  match r.lastExecutorEvaluation with
  | some ev => ev.suspicious_no_change
  | none => false

/-- `evaluation?.retried === true` on a run result. -/
def evalRetried (r : RunResultView) : Bool :=
  match r.lastExecutorEvaluation with
  | some ev => ev.retried
  | none => false

/-- `evaluation?.retry_result ? retry_result.has_changes === true : false`. -/
def evalRetryHasChanges (r : RunResultView) : Bool :=
  match r.lastExecutorEvaluation with
  | some ev =>
    match ev.retry_result with
    | some rr => rr.has_changes
    | none => false
  | none => false

/-- Whether iteration `iteration` continues to the next iteration or stops
the autobuild with a reason. -/
inductive IterOutcome where
  | next
  | stop (reason : String)
deriving DecidableEq, Repr

/-- The post-run classification of one autobuild iteration, transcribed from
the ordered `if` chain of the `autobuild:start` handler (first match wins). -/
def classifyIteration (r : RunResultView) (iteration maxIterations : Nat) : IterOutcome :=
  if r.decisionPending then .stop "decision_pending"
  else if r.cancelled then .stop "cancelled"
  else if evalNoOp r then .stop "no_op"
  else if evalSuspicious r && evalRetried r && !(evalRetryHasChanges r) then
    .stop "retry_no_change"
  else if r.exitCode ≠ 0 then
    if iteration < maxIterations then .next else .stop "failed"
  else if iteration ≥ maxIterations then .stop "max_iterations_reached"
  else .next

/-- Per-iteration environment of the autobuild loop: the cancel flag
observed before planning and after the plan event, the planner outcome, and
the run result. -/
structure AutobuildEnv where
  cancelledBeforePlanning : Nat → Bool
  planOutcome : Nat → PlanResult
  cancelledAfterPlan : Nat → Bool
  runResult : Nat → RunResultView

/-- The autobuild iteration loop, with fuel equal to the number of remaining
iterations; returns the stop reason and `iterationsRun`. The initial
`stopReason` value of the source, `"max_iterations_reached"`, is returned if
the loop exhausts its bound without a break. -/
def autobuildGo (env : AutobuildEnv) (maxIterations : Nat) :
    Nat → Nat → Nat → String × Nat
  | 0, _, iterationsRun => ("max_iterations_reached", iterationsRun)
  | fuel + 1, iteration, iterationsRun =>
    if env.cancelledBeforePlanning iteration then ("cancelled", iterationsRun)
    else
      match env.planOutcome iteration with
      | .error _ => ("planning_failed", iterationsRun)
      | .ok _ =>
        if env.cancelledAfterPlan iteration then ("cancelled", iterationsRun)
        else
          match classifyIteration (env.runResult iteration) iteration maxIterations with
          | .stop reason => (reason, iterationsRun + 1)
          | .next => autobuildGo env maxIterations fuel (iteration + 1) (iterationsRun + 1)

/-- The `autobuild:start` handler's loop `for (iteration = 1; iteration <=
maxIterations; ...)`. -/
def autobuildStart (env : AutobuildEnv) (maxIterations : Nat) : String × Nat :=
  autobuildGo env maxIterations maxIterations 1 0

/-! ## Cancellation (main.ts `run:cancel` handler) -/

/-- The process-wide mutable state the `run:cancel` handler touches. -/
structure OrchState where
  activePlanId : Option String := none
  activePlanCancelled : Bool := false
  activeRunId : Option String := none
  activeRunCancelled : Bool := false
  pendingDecisions : List (String × List String) := []
deriving DecidableEq, Repr

/-- Result of a `cancelRun` request: the returned boolean, the state after
the handler, the events emitted, whether the currently supervised child's
termination sequence was initiated, and whether a pending decision was
resolved as rejected. -/
structure CancelOut where
  returned : Bool
  st : OrchState
  events : List Event
  terminatedChild : Bool
  resolvedRejected : Bool
deriving DecidableEq, Repr

/-- main.ts `run:cancel` handler: `false` and no effect unless `runId` is
the active run; otherwise set the plan's cancel flag, log, terminate the
supervised child if it belongs to this run, resolve any pending decision as
rejected and remove it, emit `run:cancelled`, return `true`. -/
def cancelRun (st : OrchState) (runId : String) : CancelOut :=
  if st.activePlanId ≠ some runId then
    ⟨false, st, [], false, false⟩
  else
    let st1 := { st with activePlanCancelled := true }
    let terminate := st1.activeRunId == some runId
    let st2 := if terminate then { st1 with activeRunCancelled := true } else st1
    let hasPending := st2.pendingDecisions.any (fun pd => pd.1 == runId)
    let st3 :=
      { st2 with pendingDecisions := st2.pendingDecisions.filter (fun pd => pd.1 != runId) }
    ⟨true, st3, [.runOutput "system" "[Cancelled by user]\n", .runCancelled],
      terminate, hasPending⟩

/-- The precheck-hit value a continuing step leaves behind for the next
step: a `cmd` step leaves its probe result, `note` and `executor` steps
clear the flag. -/
def precheckFlagOf (step : PlanStep) (e : StepEnv) : Bool :=
  match step with
  | .cmd command => isPrecheckCommand command && !(jsTrim e.cmdResult.stdout).isEmpty
  | _ => false

/-! ## Helper lemmas -/

theorem mem_depStep (acc : List String) (x f : String) :
    f ∈ depStep acc x ↔ f ∈ acc ∨ (f = x ∧ isDependencyPath x = true) := by
  unfold depStep
  by_cases hcond : (isDependencyPath x && !(acc.contains x)) = true
  · rw [if_pos hcond]
    have hd : isDependencyPath x = true := by
      have h := hcond
      simp only [Bool.and_eq_true] at h
      exact h.1
    simp only [List.mem_append, List.mem_singleton]
    constructor
    · rintro (h | rfl)
      · exact Or.inl h
      · exact Or.inr ⟨rfl, hd⟩
    · rintro (h | ⟨rfl, -⟩)
      · exact Or.inl h
      · exact Or.inr rfl
  · rw [if_neg hcond]
    constructor
    · exact Or.inl
    · rintro (h | ⟨rfl, hd⟩)
      · exact h
      · by_contra hmem
        have hcf : acc.contains f = false := by simpa using hmem
        exact hcond (by rw [hd, hcf]; rfl)

theorem mem_matchDependencyFiles_aux (l : List String) (acc : List String) (f : String) :
    f ∈ l.foldl depStep acc ↔ f ∈ acc ∨ (f ∈ l ∧ isDependencyPath f = true) := by
  induction l generalizing acc with
  | nil => simp
  | cons x xs ih =>
    rw [List.foldl_cons, ih, mem_depStep]
    constructor
    · rintro ((h | ⟨rfl, hd⟩) | ⟨hm, hd⟩)
      · exact Or.inl h
      · exact Or.inr ⟨List.mem_cons_self _ _, hd⟩
      · exact Or.inr ⟨List.mem_cons_of_mem _ hm, hd⟩
    · rintro (h | ⟨hm, hd⟩)
      · exact Or.inl (Or.inl h)
      · rcases List.mem_cons.mp hm with rfl | hm
        · exact Or.inl (Or.inr ⟨rfl, hd⟩)
        · exact Or.inr ⟨hm, hd⟩

theorem mem_matchDependencyFiles (files : List String) (f : String) :
    f ∈ matchDependencyFiles files ↔ f ∈ files ∧ isDependencyPath f = true := by
  unfold matchDependencyFiles
  rw [mem_matchDependencyFiles_aux]
  simp

theorem nodup_depStep (acc : List String) (x : String) (h : acc.Nodup) :
    (depStep acc x).Nodup := by
  unfold depStep
  by_cases hc : x ∈ acc
  · have hc' : acc.contains x = true := by simpa using hc
    rw [hc']
    simp [h]
  · have hc' : acc.contains x = false := by simpa using hc
    rw [hc']
    by_cases hd : isDependencyPath x = true
    · rw [hd]
      simpa [List.nodup_append, h] using hc
    · have hd' : isDependencyPath x = false := by simpa using hd
      rw [hd']
      simp [h]

theorem nodup_matchDependencyFiles_aux (l : List String) (acc : List String)
    (h : acc.Nodup) : (l.foldl depStep acc).Nodup := by
  induction l generalizing acc with
  | nil => simpa using h
  | cons x xs ih =>
    rw [List.foldl_cons]
    exact ih _ (nodup_depStep _ _ h)

theorem nodup_matchDependencyFiles (files : List String) :
    (matchDependencyFiles files).Nodup :=
  nodup_matchDependencyFiles_aux files [] List.nodup_nil

/-! ## C2: `isCommandAllowed` -/

/-- C2 counterexample: the claim states that `isCommandAllowed` trims
leading whitespace and requires a word boundary after the allowed token; the
source's bare `startsWith` accepts `gitfoo status` (claim says rejected) and
rejects `\x20git status` (claim says accepted), so the claimed equivalence
fails at both inputs. -/
theorem C2_counterexample :
    isCommandAllowed "gitfoo status" = true ∧
    specCommandAllowed "gitfoo status" = false ∧
    isCommandAllowed " git status" = false ∧
    specCommandAllowed " git status" = true := by
  decide

/-- C2 (amended): `isCommandAllowed(s)` returns true iff the raw string `s`
begins with the literal prefix `git` — no leading-whitespace trim and no
word-boundary check — so `gitfoo status` is accepted and `\x20git status`
(leading space) is rejected. -/
theorem C2_isCommandAllowed_prefix (s : String) :
    (isCommandAllowed s = true ↔ "git".data <+: s.data) ∧
    isCommandAllowed "gitfoo status" = true ∧
    isCommandAllowed " git status" = false := by
  refine ⟨?_, by decide, by decide⟩
  unfold isCommandAllowed ALLOWED_COMMAND_PREFIXES strStartsWith
  simp [List.isPrefixOf_iff_prefix]

/-! ## C6: the plan validator -/

theorem ite_singleton_eq_nil {c : Prop} [Decidable c] (msg : String) :
    ((if c then [msg] else []) = ([] : List String)) ↔ ¬c := by
  split <;> simp_all

theorem cmdStepIssues_eq_nil (step : PlanStep) :
    cmdStepIssues step = [] ↔
      ∀ c, step = PlanStep.cmd c →
        (jsTrim c).isEmpty = false ∧ isCommandAllowed (jsTrim c) = true := by
  cases step with
  | note m => simp [cmdStepIssues]
  | executor t i => simp [cmdStepIssues]
  | cmd c =>
    unfold cmdStepIssues
    by_cases he : (jsTrim c).isEmpty = true
    · simp [he]
    · have he' : (jsTrim c).isEmpty = false := by simpa using he
      by_cases ha : isCommandAllowed (jsTrim c) = true
      · simp [he', ha]
      · have ha' : isCommandAllowed (jsTrim c) = false := by simpa using ha
        simp [he', ha']

theorem validateGeneratedPlan_eq_nil (plan : TaskPlan) :
    validateGeneratedPlan plan = [] ↔
      plan.steps.length ≤ 8 ∧
      (∃ m, PlanStep.note m ∈ plan.steps) ∧
      ∀ c, PlanStep.cmd c ∈ plan.steps →
        (jsTrim c).isEmpty = false ∧ isCommandAllowed (jsTrim c) = true := by
  unfold validateGeneratedPlan
  rw [List.append_eq_nil, List.append_eq_nil, List.flatten_eq_nil_iff,
    ite_singleton_eq_nil, ite_singleton_eq_nil]
  constructor
  · rintro ⟨⟨h8, hnote⟩, hcmd⟩
    refine ⟨by omega, ?_, ?_⟩
    · have : plan.steps.any (fun s => match s with | .note _ => true | _ => false) = true := by
        by_contra h
        exact hnote (by simpa using h)
      rcases List.any_eq_true.mp this with ⟨s, hs, hps⟩
      cases s with
      | note m => exact ⟨m, hs⟩
      | cmd c => cases hps
      | executor t i => cases hps
    · intro c hc
      have := hcmd (cmdStepIssues (PlanStep.cmd c)) (List.mem_map.mpr ⟨_, hc, rfl⟩)
      exact (cmdStepIssues_eq_nil _).mp this c rfl
  · rintro ⟨h8, ⟨m, hm⟩, hcmd⟩
    refine ⟨⟨by omega, ?_⟩, ?_⟩
    · intro h
      have : plan.steps.any (fun s => match s with | .note _ => true | _ => false) = true :=
        List.any_eq_true.mpr ⟨PlanStep.note m, hm, rfl⟩
      simp [this] at h
    · intro l hl
      rcases List.mem_map.mp hl with ⟨s, hs, rfl⟩
      rw [cmdStepIssues_eq_nil]
      rintro c rfl
      exact hcmd c hs

theorem schemaAccepts_iff (plan : TaskPlan) :
    schemaAccepts plan = true ↔
      ∀ t i, PlanStep.executor t i ∈ plan.steps → t = "codex" ∨ t = "claude_code" := by
  unfold schemaAccepts
  rw [List.all_eq_true]
  constructor
  · intro h t i hmem
    have := h _ hmem
    simpa [schemaToolOk] using this
  · intro h s hs
    cases s with
    | note m => simp [schemaToolOk]
    | cmd c => simp [schemaToolOk]
    | executor t i =>
      have := h t i hs
      simpa [schemaToolOk] using this

/-- An 8-step plan with one note and seven allowlisted cmd steps. -/
def plan8 : TaskPlan :=
  ⟨"eight", PlanStep.note "start" :: List.replicate 7 (PlanStep.cmd "git status")⟩

/-- A 9-step plan with one note and eight allowlisted cmd steps. -/
def plan9 : TaskPlan :=
  ⟨"nine", PlanStep.note "start" :: List.replicate 8 (PlanStep.cmd "git status")⟩

/-- C6 counterexample: the claim requires the plan name to be non-empty
after trim, but neither `TaskPlanSchema` (`z.string()`) nor
`validateGeneratedPlan` ever inspects the name, so a plan whose name is a
single space and whose steps are otherwise valid is accepted by the code
while the claimed acceptance condition is false. -/
theorem C6_counterexample :
    planValidatorAccepts ⟨" ", [PlanStep.note "hi"]⟩ = true ∧
    specValidatorAccepts ⟨" ", [PlanStep.note "hi"]⟩ = false := by
  decide

/-- C6 (amended): the plan validator accepts a plan iff its steps list has
at most 8 elements, contains at least one note step (hence is non-empty),
every cmd step's command is non-empty after trim and matches the allowlist
prefix check, and every executor tool belongs to the schema enum; the plan
name is not validated (an empty or whitespace name is accepted). A plan of
exactly 8 steps including a note is accepted and one of 9 steps is
rejected. -/
theorem C6_validator_characterization (plan : TaskPlan) :
    (planValidatorAccepts plan = true ↔
      (plan.steps.length ≤ 8 ∧
       (∃ m, PlanStep.note m ∈ plan.steps) ∧
       (∀ c, PlanStep.cmd c ∈ plan.steps →
          (jsTrim c).isEmpty = false ∧ isCommandAllowed (jsTrim c) = true) ∧
       (∀ t i, PlanStep.executor t i ∈ plan.steps → t = "codex" ∨ t = "claude_code"))) ∧
    planValidatorAccepts plan8 = true ∧
    planValidatorAccepts plan9 = false := by
  refine ⟨?_, by decide, by decide⟩
  unfold planValidatorAccepts
  rw [Bool.and_eq_true, List.isEmpty_iff, validateGeneratedPlan_eq_nil, schemaAccepts_iff]
  constructor
  · rintro ⟨hschema, h8, hnote, hcmd⟩
    exact ⟨h8, hnote, hcmd, hschema⟩
  · rintro ⟨h8, hnote, hcmd, hschema⟩
    exact ⟨hschema, h8, hnote, hcmd⟩

/-! ## C7: the decision gate's changed-path derivation and matching -/

/-- C7 counterexample: the claim states the gate derives the changed-path
list as a *sorted, deduplicated* list. The source's `parseNameOnly` keeps
duplicates (and input order): on the name-only output below the derived list
contains `b/package.json` twice, and the emitted payload preserves input
order (`z/...` before `a/...`) rather than sorted order. -/
theorem C7_counterexample :
    parseNameOnly "b/package.json\nb/package.json\na.txt" =
      ["b/package.json", "b/package.json", "a.txt"] ∧
    ¬ (parseNameOnly "b/package.json\nb/package.json\na.txt").Nodup ∧
    (maybeRequestDecision (.ok "" "" "z/package.json\na/package.json")
        "run" [] true .approved).events =
      [Event.runOutput "system"
        "Dependency changes detected. Awaiting approval: z/package.json, a/package.json\n",
       Event.runDecision ["z/package.json", "a/package.json"]] := by
  refine ⟨by decide, by decide, by decide⟩

/-- C7 (amended): the gate derives the changed-path list as the trimmed
non-empty lines of the name-only output in input order (neither sorted nor
deduplicated); a path appears in the `run:decision` files payload iff it
occurs in that list and equals one of the four dependency file names or ends
with `/` followed by one (i.e. its basename is exactly one of them), each
matching path appearing exactly once, in first-occurrence order; when no
path matches, the gate emits nothing and returns null with the
pending-decision map unchanged. -/
theorem C7_decision_gate :
    (∀ (files : List String) (f : String),
      f ∈ matchDependencyFiles files ↔ f ∈ files ∧ isDependencyPath f = true) ∧
    (∀ files, (matchDependencyFiles files).Nodup) ∧
    (∀ status diffStat nameOnly ρ pend a ans,
      matchDependencyFiles (parseNameOnly nameOnly) = [] →
      maybeRequestDecision (.ok status diffStat nameOnly) ρ pend a ans =
        ⟨none, [], pend⟩) ∧
    (∀ status diffStat nameOnly ρ pend a ans,
      matchDependencyFiles (parseNameOnly nameOnly) ≠ [] →
      (maybeRequestDecision (.ok status diffStat nameOnly) ρ pend a ans).events =
        [Event.runOutput "system"
          ("Dependency changes detected. Awaiting approval: " ++
            String.intercalate ", " (matchDependencyFiles (parseNameOnly nameOnly)) ++ "\n"),
         Event.runDecision (matchDependencyFiles (parseNameOnly nameOnly))]) := by
  refine ⟨mem_matchDependencyFiles, nodup_matchDependencyFiles, ?_, ?_⟩
  · intro status diffStat nameOnly ρ pend a ans h
    cases he : nameOnly.isEmpty with
    | true => simp [maybeRequestDecision, he]
    | false => simp [maybeRequestDecision, he, h]
  · intro status diffStat nameOnly ρ pend a ans h
    have he : nameOnly.isEmpty = false := by
      cases he : nameOnly.isEmpty with
      | false => rfl
      | true =>
        have : nameOnly = "" := (String.isEmpty_iff nameOnly).mp he
        subst this
        exact absurd (by decide) h
    have hne : (matchDependencyFiles (parseNameOnly nameOnly)).isEmpty = false := by
      cases h' : (matchDependencyFiles (parseNameOnly nameOnly)).isEmpty with
      | false => rfl
      | true => exact absurd (List.isEmpty_iff.mp h') h
    cases a <;> cases ans <;> simp [maybeRequestDecision, he, hne]

/-! ## C10: evidence failure disables the gate -/

/-- C10: whenever any of the three evidence queries exits non-zero,
`collectGitEvidence` returns an error object, and on an error object
`maybeRequestDecision` returns null immediately: it emits no event and
leaves the pending-decision map unchanged, so a dependency change can never
trigger the approval gate in a step whose evidence collection failed. -/
theorem C10_evidence_error_gate :
    (∀ env : EvidenceEnv,
      env.statusRes.code ≠ 0 ∨ env.diffStatRes.code ≠ 0 ∨ env.nameOnlyRes.code ≠ 0 →
      ∃ msg, collectGitEvidence env = Evidence.err msg) ∧
    (∀ msg ρ pend a ans,
      maybeRequestDecision (Evidence.err msg) ρ pend a ans = ⟨none, [], pend⟩) := by
  constructor
  · intro env h
    by_cases h1 : env.statusRes.code ≠ 0
    · exact ⟨"git status --porcelain failed", by simp [collectGitEvidence, h1]; decide⟩
    · by_cases h2 : env.diffStatRes.code ≠ 0
      · exact ⟨"git diff --stat failed", by simp [collectGitEvidence, h1, h2]; decide⟩
      · have h3 : env.nameOnlyRes.code ≠ 0 := by tauto
        exact ⟨"git diff --name-only failed", by simp [collectGitEvidence, h1, h2, h3]; decide⟩
  · intro msg ρ pend a ans
    rfl

/-- C10 witness at a concrete environment: the diff-stat query fails. -/
theorem C10_witness :
    (∃ msg, collectGitEvidence { diffStatRes := { code := 1 } } = Evidence.err msg) ∧
    maybeRequestDecision (Evidence.err "boom") "run" [("r", ["package.json"])] true .approved =
      ⟨none, [], [("r", ["package.json"])]⟩ :=
  ⟨C10_evidence_error_gate.1 { diffStatRes := { code := 1 } } (Or.inr (Or.inl (by decide))),
   C10_evidence_error_gate.2 "boom" "run" [("r", ["package.json"])] true .approved⟩

/-! ## C5: autobuild post-run stop classification -/

/-- C5: the post-run stop classification applies its rules in order, first
match winning: `decisionPending` stops with `decision_pending`; else
`cancelled` stops with `cancelled`; else `no_op` stops with `no_op`; else
`suspicious_no_change ∧ retried ∧ ¬retry_result.has_changes` stops with
`retry_no_change`; else a non-zero exit continues when `k < max` and stops
with `failed` when `k = max`; else `k = max` stops with
`max_iterations_reached`. A `next` classification makes the loop run the
next iteration. -/
theorem C5_stop_classification :
    (∀ (r : RunResultView) (k m : Nat),
      (r.decisionPending = true → classifyIteration r k m = .stop "decision_pending") ∧
      (r.decisionPending = false → r.cancelled = true →
        classifyIteration r k m = .stop "cancelled") ∧
      (r.decisionPending = false → r.cancelled = false → evalNoOp r = true →
        classifyIteration r k m = .stop "no_op") ∧
      (r.decisionPending = false → r.cancelled = false → evalNoOp r = false →
        (evalSuspicious r && evalRetried r && !(evalRetryHasChanges r)) = true →
        classifyIteration r k m = .stop "retry_no_change") ∧
      (r.decisionPending = false → r.cancelled = false → evalNoOp r = false →
        (evalSuspicious r && evalRetried r && !(evalRetryHasChanges r)) = false →
        r.exitCode ≠ 0 → k < m → classifyIteration r k m = .next) ∧
      (r.decisionPending = false → r.cancelled = false → evalNoOp r = false →
        (evalSuspicious r && evalRetried r && !(evalRetryHasChanges r)) = false →
        r.exitCode ≠ 0 → k = m → classifyIteration r k m = .stop "failed") ∧
      (r.decisionPending = false → r.cancelled = false → evalNoOp r = false →
        (evalSuspicious r && evalRetried r && !(evalRetryHasChanges r)) = false →
        r.exitCode = 0 → k = m → classifyIteration r k m = .stop "max_iterations_reached")) ∧
    (∀ (env : AutobuildEnv) (m fuel k n : Nat) (p : TaskPlan),
      env.cancelledBeforePlanning k = false →
      env.planOutcome k = .ok p →
      env.cancelledAfterPlan k = false →
      classifyIteration (env.runResult k) k m = .next →
      autobuildGo env m (fuel + 1) k n = autobuildGo env m fuel (k + 1) (n + 1)) := by
  constructor
  · intro r k m
    refine ⟨?_, ?_, ?_, ?_, ?_, ?_, ?_⟩
    · intro h1
      simp [classifyIteration, h1]
    · intro h1 h2
      simp [classifyIteration, h1, h2]
    · intro h1 h2 h3
      simp [classifyIteration, h1, h2, h3]
    · intro h1 h2 h3 h4
      simp [classifyIteration, h1, h2, h3, h4]
    · intro h1 h2 h3 h4 h5 h6
      simp [classifyIteration, h1, h2, h3, h4, h5, h6]
    · intro h1 h2 h3 h4 h5 h6
      subst h6
      simp [classifyIteration, h1, h2, h3, h4, h5]
    · intro h1 h2 h3 h4 h5 h6
      subst h6
      simp [classifyIteration, h1, h2, h3, h4, h5]
  · intro env m fuel k n p h1 h2 h3 h4
    simp [autobuildGo, h1, h2, h3, h4]

/-- C5 witness: the classification rules applied at concrete run results and
iteration counters. -/
theorem C5_witness :
    classifyIteration { decisionPending := true } 1 2 = .stop "decision_pending" ∧
    classifyIteration { cancelled := true } 1 2 = .stop "cancelled" ∧
    classifyIteration { exitCode := 1 } 1 2 = .next ∧
    classifyIteration { exitCode := 1 } 2 2 = .stop "failed" ∧
    classifyIteration {} 2 2 = .stop "max_iterations_reached" :=
  ⟨(C5_stop_classification.1 { decisionPending := true } 1 2).1 rfl,
   (C5_stop_classification.1 { cancelled := true } 1 2).2.1 rfl rfl,
   (C5_stop_classification.1 { exitCode := 1 } 1 2).2.2.2.2.1 rfl rfl rfl rfl
     (by decide) (by decide),
   (C5_stop_classification.1 { exitCode := 1 } 2 2).2.2.2.2.2.1 rfl rfl rfl rfl
     (by decide) rfl,
   (C5_stop_classification.1 {} 2 2).2.2.2.2.2.2 rfl rfl rfl rfl rfl rfl⟩

/-! ## C9: planner retry on forbidden operators -/

/-- C9: when the first completion call yields a schema- and policy-valid
plan that still contains a forbidden shell operator in a cmd step, the
completion call is retried exactly once, with the fixed reminder appended to
the user prompt after a newline; if the second attempt's plan is again valid
but still contains a forbidden operator, `generatePlan` fails with the fixed
error; and no execution ever makes more than two completion calls. -/
theorem C9_planner_retry :
    (∀ (env : Nat → AttemptResult) (base : String) (p0 : TaskPlan),
      env 0 = .plan p0 → validateGeneratedPlan p0 = [] → planHasForbiddenCmdOps p0 = true →
      (generatePlanFromRequirement env base).prompts = [base, base ++ "\n" ++ retryHint] ∧
      (∀ p1 : TaskPlan,
        env 1 = .plan p1 → validateGeneratedPlan p1 = [] → planHasForbiddenCmdOps p1 = true →
        (generatePlanFromRequirement env base).result =
          .error "Planner output includes forbidden shell operators in cmd steps. Remove shell operators manually and retry.")) ∧
    (∀ (env : Nat → AttemptResult) (base : String),
      (generatePlanFromRequirement env base).prompts.length ≤ 2) := by
  constructor
  · intro env base p0 h0 hval0 hforb0
    have hmain :
        generatePlanFromRequirement env base =
          (match env 1 with
           | .httpError m => ⟨.error m, [base, base ++ "\n" ++ retryHint]⟩
           | .emptyContent =>
             ⟨.error "OpenAI response missing content", [base, base ++ "\n" ++ retryHint]⟩
           | .parseError m =>
             ⟨.error ("Planner JSON parse error: " ++ m), [base, base ++ "\n" ++ retryHint]⟩
           | .schemaError m =>
             ⟨.error ("Plan schema validation failed: " ++ m), [base, base ++ "\n" ++ retryHint]⟩
           | .plan plan1 =>
             plannerAcceptPlan plan1 [base, base ++ "\n" ++ retryHint]
               ⟨.error "Planner output includes forbidden shell operators in cmd steps. Remove shell operators manually and retry.",
                [base, base ++ "\n" ++ retryHint]⟩) := by
      simp only [generatePlanFromRequirement, h0]
      simp [plannerAcceptPlan, hval0, hforb0]
    constructor
    · rw [hmain]
      cases h1 : env 1 with
      | httpError m => rfl
      | emptyContent => rfl
      | parseError m => rfl
      | schemaError m => rfl
      | plan p1 =>
        simp only [plannerAcceptPlan]
        split
        · rfl
        · split
          · rfl
          · rfl
    · intro p1 h1 hval1 hforb1
      rw [hmain, h1]
      simp [plannerAcceptPlan, hval1, hforb1]
  · intro env base
    simp only [generatePlanFromRequirement]
    cases h0 : env 0 with
    | httpError m => simp
    | emptyContent => simp
    | parseError m => simp
    | schemaError m => simp
    | plan p0 =>
      simp only [plannerAcceptPlan]
      split
      · simp
      · split
        · cases h1 : env 1 with
          | httpError m => simp
          | emptyContent => simp
          | parseError m => simp
          | schemaError m => simp
          | plan p1 =>
            simp only [plannerAcceptPlan]
            split
            · simp
            · split <;> simp
        · simp

/-! ## Step-loop invariants -/

theorem gateAfterStep_fields (a : Bool) (ρ : String) (e : StepEnv) (ev : Evidence)
    (st : LoopState) :
    (gateAfterStep a ρ e ev st).1.records = st.records ∧
    (gateAfterStep a ρ e ev st).1.spawned = st.spawned ∧
    (gateAfterStep a ρ e ev st).1.blockedByPolicy = st.blockedByPolicy ∧
    (gateAfterStep a ρ e ev st).1.lastPrecheckHit = st.lastPrecheckHit ∧
    (gateAfterStep a ρ e ev st).1.executorInvocations = st.executorInvocations ∧
    (gateAfterStep a ρ e ev st).1.noOpLogs = st.noOpLogs ∧
    ((gateAfterStep a ρ e ev st).2 = true →
      (gateAfterStep a ρ e ev st).1.lastExitCode = st.lastExitCode) := by
  unfold gateAfterStep
  cases hg : (maybeRequestDecision ev ρ st.pending a e.decisionAnswer).result with
  | none => simp [hg]
  | some g =>
    cases g with
    | pending => simp [hg]
    | rejected => simp [hg]
    | approved =>
      by_cases hca : e.cancelAfterDecision = true <;> simp [hg, hca]

theorem blockedStep_spec (a : Bool) (ρ : String) (e : StepEnv) (idx : Nat) (ty : String)
    (st : LoopState) :
    (blockedStep a ρ e idx ty st).2 = false ∧
    (blockedStep a ρ e idx ty st).1.blockedByPolicy = true ∧
    (blockedStep a ρ e idx ty st).1.lastExitCode = -1 ∧
    (blockedStep a ρ e idx ty st).1.spawned = st.spawned ∧
    (blockedStep a ρ e idx ty st).1.lastPrecheckHit = st.lastPrecheckHit ∧
    (blockedStep a ρ e idx ty st).1.records =
      st.records ++
        [{ step_index := idx + 1, type := ty, exit_code := some (-1),
           blocked_by_policy := true,
           evidence := some (collectGitEvidence e.evidenceEnv) }] := by
  unfold blockedStep
  exact ⟨rfl, rfl, rfl, rfl, rfl, rfl⟩

theorem execStepCore_step_index (e : StepEnv) (b : Bool) (i : String) (k : Nat) :
    (execStepCore e b i k).record.step_index = k := by
  simp only [execStepCore]
  split
  · rfl
  · split <;> rfl

theorem cmdNormalStep_fields (a : Bool) (ρ : String) (e : StepEnv) (idx : Nat)
    (c : String) (st : LoopState) :
    (∃ rec : StepRecord, rec.step_index = idx + 1 ∧ rec.blocked_by_policy = false ∧
      (cmdNormalStep a ρ e idx c st).1.records = st.records ++ [rec]) ∧
    (cmdNormalStep a ρ e idx c st).1.blockedByPolicy = st.blockedByPolicy ∧
    (cmdNormalStep a ρ e idx c st).1.executorInvocations = st.executorInvocations ∧
    (cmdNormalStep a ρ e idx c st).1.noOpLogs = st.noOpLogs ∧
    ((cmdNormalStep a ρ e idx c st).1.spawned = st.spawned ∨
      (cmdNormalStep a ρ e idx c st).1.spawned = st.spawned ++ [(idx + 1, c)]) := by
  unfold cmdNormalStep
  cases hsp : splitArgs c with
  | nil =>
    exact ⟨⟨{ step_index := idx + 1, type := "cmd", exit_code := some (-1) },
      rfl, rfl, rfl⟩, rfl, rfl, rfl, Or.inl rfl⟩
  | cons b args =>
    dsimp only
    split <;> (try split) <;>
      first
        | exact ⟨⟨_, rfl, rfl, rfl⟩, rfl, rfl, rfl, Or.inr rfl⟩
        | exact ⟨⟨_, rfl, rfl, (gateAfterStep_fields _ _ _ _ _).1⟩,
            (gateAfterStep_fields _ _ _ _ _).2.2.1,
            (gateAfterStep_fields _ _ _ _ _).2.2.2.2.1,
            (gateAfterStep_fields _ _ _ _ _).2.2.2.2.2.1,
            Or.inr (gateAfterStep_fields _ _ _ _ _).2.1⟩

theorem execAllowedStep_fields (a : Bool) (ρ : String) (e : StepEnv) (idx : Nat)
    (ins : String) (st : LoopState) :
    (execAllowedStep a ρ e idx ins st).1.records =
      st.records ++ [(execStepCore e st.lastPrecheckHit ins (idx + 1)).record] ∧
    (execAllowedStep a ρ e idx ins st).1.spawned = st.spawned ∧
    (execAllowedStep a ρ e idx ins st).1.blockedByPolicy = st.blockedByPolicy ∧
    (execAllowedStep a ρ e idx ins st).1.lastPrecheckHit = false ∧
    (execAllowedStep a ρ e idx ins st).1.executorInvocations =
      st.executorInvocations ++
        (execStepCore e st.lastPrecheckHit ins (idx + 1)).invocations.map
          (fun s => (idx + 1, s)) ∧
    (execAllowedStep a ρ e idx ins st).1.noOpLogs =
      st.noOpLogs ++ (execStepCore e st.lastPrecheckHit ins (idx + 1)).noOpLogs := by
  unfold execAllowedStep
  dsimp only
  split
  · exact ⟨rfl, rfl, rfl, rfl, rfl, rfl⟩
  · exact ⟨(gateAfterStep_fields _ _ _ _ _).1,
      (gateAfterStep_fields _ _ _ _ _).2.1,
      (gateAfterStep_fields _ _ _ _ _).2.2.1,
      (gateAfterStep_fields _ _ _ _ _).2.2.2.1,
      (gateAfterStep_fields _ _ _ _ _).2.2.2.2.1,
      (gateAfterStep_fields _ _ _ _ _).2.2.2.2.2.1⟩

theorem processStep_records (a : Bool) (ρ : String) (e : StepEnv) (idx : Nat)
    (step : PlanStep) (st : LoopState) :
    ∃ newRecs, (processStep a ρ e idx step st).1.records = st.records ++ newRecs ∧
      ∀ r ∈ newRecs, r.step_index = idx + 1 ∧
        ∀ c, step = PlanStep.cmd c → isCommandAllowed c = true →
          hasForbiddenShellOperators c = true →
          r.blocked_by_policy = true ∧ r.exit_code = some (-1) := by
  cases step with
  | note m =>
    refine ⟨[{ step_index := idx + 1, type := "note" }], rfl, ?_⟩
    intro r hr
    rcases List.mem_singleton.mp hr with rfl
    exact ⟨rfl, fun c hc => nomatch hc⟩
  | executor tool instructions =>
    by_cases hT : isExecutorToolAllowed tool = true
    · have hps : processStep a ρ e idx (.executor tool instructions) st =
          execAllowedStep a ρ e idx instructions st := by
        simp [processStep, processExec, hT]
      rw [hps]
      refine ⟨[(execStepCore e st.lastPrecheckHit instructions (idx + 1)).record],
        (execAllowedStep_fields a ρ e idx instructions st).1, ?_⟩
      intro r hr
      rcases List.mem_singleton.mp hr with rfl
      exact ⟨execStepCore_step_index _ _ _ _, fun c hc => nomatch hc⟩
    · have hT' : isExecutorToolAllowed tool = false := by simpa using hT
      have hps : processStep a ρ e idx (.executor tool instructions) st =
          blockedStep a ρ e idx "executor" st := by
        simp [processStep, processExec, hT']
      rw [hps]
      refine ⟨_, (blockedStep_spec a ρ e idx "executor" st).2.2.2.2.2, ?_⟩
      intro r hr
      rcases List.mem_singleton.mp hr with rfl
      exact ⟨rfl, fun c hc => nomatch hc⟩
  | cmd c =>
    by_cases hA : isCommandAllowed c = true
    · by_cases hF : hasForbiddenShellOperators c = true
      · have hps : processStep a ρ e idx (.cmd c) st = blockedStep a ρ e idx "cmd" st := by
          simp [processStep, processCmd, hA, hF]
        rw [hps]
        refine ⟨_, (blockedStep_spec a ρ e idx "cmd" st).2.2.2.2.2, ?_⟩
        intro r hr
        rcases List.mem_singleton.mp hr with rfl
        refine ⟨rfl, ?_⟩
        rintro c' - - -
        exact ⟨rfl, rfl⟩
      · have hF' : hasForbiddenShellOperators c = false := by simpa using hF
        have hps : processStep a ρ e idx (.cmd c) st = cmdNormalStep a ρ e idx c st := by
          simp [processStep, processCmd, hA, hF']
        rw [hps]
        rcases (cmdNormalStep_fields a ρ e idx c st).1 with ⟨rec, hidx, hbl, hrecs⟩
        refine ⟨[rec], hrecs, ?_⟩
        intro r hr
        rcases List.mem_singleton.mp hr with rfl
        refine ⟨hidx, ?_⟩
        rintro c' hc' - hforb
        cases hc'
        rw [hforb] at hF'
        cases hF'
    · have hA' : isCommandAllowed c = false := by simpa using hA
      have hps : processStep a ρ e idx (.cmd c) st = blockedStep a ρ e idx "cmd" st := by
        simp [processStep, processCmd, hA']
      rw [hps]
      refine ⟨_, (blockedStep_spec a ρ e idx "cmd" st).2.2.2.2.2, ?_⟩
      intro r hr
      rcases List.mem_singleton.mp hr with rfl
      refine ⟨rfl, ?_⟩
      rintro c' hc' hallowed -
      cases hc'
      rw [hallowed] at hA'
      cases hA'

theorem processStep_spawned (a : Bool) (ρ : String) (e : StepEnv) (idx : Nat)
    (step : PlanStep) (st : LoopState) :
    (processStep a ρ e idx step st).1.spawned = st.spawned ∨
    ∃ c, step = PlanStep.cmd c ∧ isCommandAllowed c = true ∧
      hasForbiddenShellOperators c = false ∧
      ((processStep a ρ e idx step st).1.spawned = st.spawned ∨
       (processStep a ρ e idx step st).1.spawned = st.spawned ++ [(idx + 1, c)]) := by
  cases step with
  | note m => exact Or.inl rfl
  | executor tool instructions =>
    by_cases hT : isExecutorToolAllowed tool = true
    · have hps : processStep a ρ e idx (.executor tool instructions) st =
          execAllowedStep a ρ e idx instructions st := by
        simp [processStep, processExec, hT]
      rw [hps]
      exact Or.inl (execAllowedStep_fields a ρ e idx instructions st).2.1
    · have hT' : isExecutorToolAllowed tool = false := by simpa using hT
      have hps : processStep a ρ e idx (.executor tool instructions) st =
          blockedStep a ρ e idx "executor" st := by
        simp [processStep, processExec, hT']
      rw [hps]
      exact Or.inl (blockedStep_spec a ρ e idx "executor" st).2.2.2.1
  | cmd c =>
    by_cases hA : isCommandAllowed c = true
    · by_cases hF : hasForbiddenShellOperators c = true
      · have hps : processStep a ρ e idx (.cmd c) st = blockedStep a ρ e idx "cmd" st := by
          simp [processStep, processCmd, hA, hF]
        rw [hps]
        exact Or.inl (blockedStep_spec a ρ e idx "cmd" st).2.2.2.1
      · have hF' : hasForbiddenShellOperators c = false := by simpa using hF
        have hps : processStep a ρ e idx (.cmd c) st = cmdNormalStep a ρ e idx c st := by
          simp [processStep, processCmd, hA, hF']
        rw [hps]
        exact Or.inr ⟨c, rfl, hA, hF', (cmdNormalStep_fields a ρ e idx c st).2.2.2.2⟩
    · have hA' : isCommandAllowed c = false := by simpa using hA
      have hps : processStep a ρ e idx (.cmd c) st = blockedStep a ρ e idx "cmd" st := by
        simp [processStep, processCmd, hA']
      rw [hps]
      exact Or.inl (blockedStep_spec a ρ e idx "cmd" st).2.2.2.1

theorem cmdNormalStep_precheckFlag (a : Bool) (ρ : String) (e : StepEnv) (idx : Nat)
    (c : String) (st : LoopState) :
    (cmdNormalStep a ρ e idx c st).2 = true →
    (cmdNormalStep a ρ e idx c st).1.lastPrecheckHit =
      (isPrecheckCommand c && !(jsTrim e.cmdResult.stdout).isEmpty) := by
  unfold cmdNormalStep
  cases hsp : splitArgs c with
  | nil => intro h; cases h
  | cons b args =>
    dsimp only
    split <;> (try split) <;>
      first
        | (intro h; cases h)
        | (intro h; exact (gateAfterStep_fields _ _ _ _ _).2.2.2.1)

/-- A step that lets the loop continue leaves in `lastPrecheckHit` exactly
the flag of `precheckFlagOf`: a cmd step's probe result, cleared by note and
executor steps. -/
theorem processStep_precheckFlag (a : Bool) (ρ : String) (e : StepEnv) (idx : Nat)
    (step : PlanStep) (st : LoopState) :
    (processStep a ρ e idx step st).2 = true →
    (processStep a ρ e idx step st).1.lastPrecheckHit = precheckFlagOf step e := by
  cases step with
  | note m => intro h; rfl
  | executor tool instructions =>
    by_cases hT : isExecutorToolAllowed tool = true
    · have hps : processStep a ρ e idx (.executor tool instructions) st =
          execAllowedStep a ρ e idx instructions st := by
        simp [processStep, processExec, hT]
      rw [hps]
      intro h
      exact (execAllowedStep_fields a ρ e idx instructions st).2.2.2.1
    · have hT' : isExecutorToolAllowed tool = false := by simpa using hT
      have hps : processStep a ρ e idx (.executor tool instructions) st =
          blockedStep a ρ e idx "executor" st := by
        simp [processStep, processExec, hT']
      rw [hps]
      rw [(blockedStep_spec a ρ e idx "executor" st).1]
      intro h
      cases h
  | cmd c =>
    by_cases hA : isCommandAllowed c = true
    · by_cases hF : hasForbiddenShellOperators c = true
      · have hps : processStep a ρ e idx (.cmd c) st = blockedStep a ρ e idx "cmd" st := by
          simp [processStep, processCmd, hA, hF]
        rw [hps, (blockedStep_spec a ρ e idx "cmd" st).1]
        intro h
        cases h
      · have hF' : hasForbiddenShellOperators c = false := by simpa using hF
        have hps : processStep a ρ e idx (.cmd c) st = cmdNormalStep a ρ e idx c st := by
          simp [processStep, processCmd, hA, hF']
        rw [hps]
        exact cmdNormalStep_precheckFlag a ρ e idx c st
    · have hA' : isCommandAllowed c = false := by simpa using hA
      have hps : processStep a ρ e idx (.cmd c) st = blockedStep a ρ e idx "cmd" st := by
        simp [processStep, processCmd, hA']
      rw [hps, (blockedStep_spec a ρ e idx "cmd" st).1]
      intro h
      cases h

/-- Observing the cancel flag at a loop head ends the run at once:
`cancelled := true`, `exitCode := -1`, and the head step is not executed. -/
theorem runStepsGo_cancel_head (a : Bool) (ρ : String) (env : Nat → StepEnv)
    (step : PlanStep) (rest : List PlanStep) (idx : Nat) (st : LoopState)
    (h : (env idx).cancelBeforeStep = true) :
    runStepsGo a ρ env (step :: rest) idx st =
      { st with cancelled := true, lastExitCode := -1 } := by
  simp only [runStepsGo, h, if_true]

theorem runStepsGo_records (a : Bool) (ρ : String) (env : Nat → StepEnv) :
    ∀ (steps : List PlanStep) (idx : Nat) (st : LoopState),
      ∀ r ∈ (runStepsGo a ρ env steps idx st).records,
        r ∈ st.records ∨
          ∃ j, r.step_index = idx + j + 1 ∧ (env (idx + j)).cancelBeforeStep = false ∧
            ∀ c, steps.get? j = some (PlanStep.cmd c) → isCommandAllowed c = true →
              hasForbiddenShellOperators c = true →
              r.blocked_by_policy = true ∧ r.exit_code = some (-1) := by
  intro steps
  induction steps with
  | nil =>
    intro idx st r hr
    exact Or.inl hr
  | cons step rest ih =>
    intro idx st r hr
    simp only [runStepsGo] at hr
    by_cases hc : (env idx).cancelBeforeStep = true
    · rw [if_pos hc] at hr
      exact Or.inl hr
    · have hc' : (env idx).cancelBeforeStep = false := by simpa using hc
      rw [if_neg (by simp [hc'])] at hr
      rcases processStep_records a ρ (env idx) idx step st with ⟨newRecs, hrecs, hnew⟩
      by_cases hcont : (processStep a ρ (env idx) idx step st).2 = true
      · rw [if_pos hcont] at hr
        rcases ih (idx + 1) _ r hr with hin | ⟨j, hj1, hj2, hj3⟩
        · rw [hrecs] at hin
          rcases List.mem_append.mp hin with hin | hin
          · exact Or.inl hin
          · refine Or.inr ⟨0, by simpa using (hnew r hin).1, by simpa using hc', ?_⟩
            intro c hcstep
            exact (hnew r hin).2 c (by simpa using hcstep)
        · refine Or.inr ⟨j + 1, by omega, ?_, ?_⟩
          · rw [show idx + (j + 1) = idx + 1 + j from by omega]
            exact hj2
          · intro c hcstep
            exact hj3 c (by simpa using hcstep)
      · rw [if_neg (by simp [hcont])] at hr
        rw [hrecs] at hr
        rcases List.mem_append.mp hr with hin | hin
        · exact Or.inl hin
        · refine Or.inr ⟨0, by simpa using (hnew r hin).1, by simpa using hc', ?_⟩
          intro c hcstep
          exact (hnew r hin).2 c (by simpa using hcstep)

theorem runStepsGo_spawned (a : Bool) (ρ : String) (env : Nat → StepEnv) :
    ∀ (steps : List PlanStep) (idx : Nat) (st : LoopState),
      ∀ p ∈ (runStepsGo a ρ env steps idx st).spawned,
        p ∈ st.spawned ∨
          ∃ j c, steps.get? j = some (PlanStep.cmd c) ∧ p = (idx + j + 1, c) ∧
            isCommandAllowed c = true ∧ hasForbiddenShellOperators c = false := by
  intro steps
  induction steps with
  | nil =>
    intro idx st p hp
    exact Or.inl hp
  | cons step rest ih =>
    intro idx st p hp
    simp only [runStepsGo] at hp
    by_cases hc : (env idx).cancelBeforeStep = true
    · rw [if_pos hc] at hp
      exact Or.inl hp
    · rw [if_neg (by simp [(by simpa using hc : (env idx).cancelBeforeStep = false)])] at hp
      have hstep :
          ∀ q ∈ (processStep a ρ (env idx) idx step st).1.spawned,
            q ∈ st.spawned ∨
              ∃ c, step = PlanStep.cmd c ∧ q = (idx + 1, c) ∧
                isCommandAllowed c = true ∧ hasForbiddenShellOperators c = false := by
        intro q hq
        rcases processStep_spawned a ρ (env idx) idx step st with hsp | ⟨c, hstepc, hAc, hFc, hsp⟩
        · rw [hsp] at hq
          exact Or.inl hq
        · rcases hsp with hsp | hsp
          · rw [hsp] at hq
            exact Or.inl hq
          · rw [hsp] at hq
            rcases List.mem_append.mp hq with hq | hq
            · exact Or.inl hq
            · exact Or.inr ⟨c, hstepc, List.mem_singleton.mp hq, hAc, hFc⟩
      by_cases hcont : (processStep a ρ (env idx) idx step st).2 = true
      · rw [if_pos hcont] at hp
        rcases ih (idx + 1) _ p hp with hin | ⟨j, c, hj1, hj2, hj3, hj4⟩
        · rcases hstep p hin with hin' | ⟨c, hstepc, hpc, hAc, hFc⟩
          · exact Or.inl hin'
          · refine Or.inr ⟨0, c, by simpa using hstepc, by simpa using hpc, hAc, hFc⟩
        · refine Or.inr ⟨j + 1, c, by simpa using hj1, ?_, hj3, hj4⟩
          rw [hj2]
          congr 1
          omega
      · rw [if_neg (by simp [hcont])] at hp
        rcases hstep p hp with hin' | ⟨c, hstepc, hpc, hAc, hFc⟩
        · exact Or.inl hin'
        · exact Or.inr ⟨0, c, by simpa using hstepc, by simpa using hpc, hAc, hFc⟩

/-- If the loop processed the policy-blocked cmd step `j` (witnessed by its
freshly appended record), the loop stopped there: the final state carries
`blockedByPolicy = true` and `lastExitCode = -1`. -/
theorem runStepsGo_blocked_stop (a : Bool) (ρ : String) (env : Nat → StepEnv) :
    ∀ (steps : List PlanStep) (idx : Nat) (st : LoopState) (j : Nat) (c : String),
      steps.get? j = some (PlanStep.cmd c) → isCommandAllowed c = true →
      hasForbiddenShellOperators c = true →
      (∃ r ∈ (runStepsGo a ρ env steps idx st).records,
        r ∉ st.records ∧ r.step_index = idx + j + 1) →
      (runStepsGo a ρ env steps idx st).blockedByPolicy = true ∧
      (runStepsGo a ρ env steps idx st).lastExitCode = -1 := by
  intro steps
  induction steps with
  | nil =>
    intro idx st j c hj
    simp at hj
  | cons step rest ih =>
    intro idx st j c hj hA hF hex
    simp only [runStepsGo] at hex ⊢
    by_cases hc : (env idx).cancelBeforeStep = true
    · rw [if_pos hc] at hex
      rcases hex with ⟨r, hr, hnotin, -⟩
      exact absurd hr hnotin
    · have hc' : (env idx).cancelBeforeStep = false := by simpa using hc
      rw [if_neg (by simp [hc'])] at hex ⊢
      cases j with
      | zero =>
        have hstep : step = PlanStep.cmd c := by simpa using hj
        subst hstep
        have hps : processStep a ρ (env idx) idx (.cmd c) st =
            blockedStep a ρ (env idx) idx "cmd" st := by
          simp [processStep, processCmd, hA, hF]
        rw [hps]
        rw [if_neg (by simp [(blockedStep_spec a ρ (env idx) idx "cmd" st).1])]
        exact ⟨(blockedStep_spec a ρ (env idx) idx "cmd" st).2.1,
          (blockedStep_spec a ρ (env idx) idx "cmd" st).2.2.1⟩
      | succ j' =>
        rcases processStep_records a ρ (env idx) idx step st with ⟨newRecs, hrecs, hnew⟩
        by_cases hcont : (processStep a ρ (env idx) idx step st).2 = true
        · rw [if_pos hcont] at hex ⊢
          apply ih (idx + 1) _ j' c (by simpa using hj) hA hF
          rcases hex with ⟨r, hr, hnotin, hidx⟩
          refine ⟨r, hr, ?_, by omega⟩
          intro hrin
          rw [hrecs] at hrin
          rcases List.mem_append.mp hrin with h' | h'
          · exact hnotin h'
          · have hone := (hnew r h').1
            omega
        · rw [if_neg (by simp [hcont])] at hex ⊢
          rcases hex with ⟨r, hr, hnotin, hidx⟩
          rw [hrecs] at hr
          rcases List.mem_append.mp hr with h' | h'
          · exact absurd h' hnotin
          · have hone := (hnew r h').1
            omega

/-! ## C1: forbidden shell operators block before spawn -/

/-- C1: in any run of a plan whose step `i` is a cmd step that passes the
allowlist but contains a forbidden shell sequence, the run executor never
spawns that step's command (no spawn trace entry carries its index); if the
run reaches the step, its record carries `blocked_by_policy = true` and
`exit_code = -1`, the run record carries `blocked_by_policy = true`, and the
run ends with `exitCode = -1`. The model returns this outcome as an
ordinary value: the policy violation is recovered locally, never raised to
the caller of `runPlan`. -/
theorem C1_forbidden_cmd_blocked (plan : TaskPlan) (env : Nat → StepEnv) (a : Bool)
    (i : Nat) (c : String)
    (hstep : plan.steps.get? i = some (PlanStep.cmd c))
    (hA : isCommandAllowed c = true)
    (hF : hasForbiddenShellOperators c = true) :
    (∀ p ∈ (runPlanInternal plan env a).spawned, p.1 ≠ i + 1) ∧
    (∀ r ∈ (runPlanInternal plan env a).steps, r.step_index = i + 1 →
      r.blocked_by_policy = true ∧ r.exit_code = some (-1)) ∧
    ((∃ r ∈ (runPlanInternal plan env a).steps, r.step_index = i + 1) →
      (runPlanInternal plan env a).blocked_by_policy = true ∧
      (runPlanInternal plan env a).exitCode = -1) := by
  refine ⟨?_, ?_, ?_⟩
  · intro p hp hpi
    have hp' : p ∈ (runStepsGo a "run" env plan.steps 0 {}).spawned := hp
    rcases runStepsGo_spawned a "run" env plan.steps 0 {} p hp' with hin | ⟨j, c', hj, hpj, -, hFj⟩
    · simp [LoopState.spawned] at hin
    · have hji : j = i := by
        rw [hpj] at hpi
        simpa using hpi
      subst hji
      have hcc : PlanStep.cmd c = PlanStep.cmd c' :=
        Option.some.inj (hstep.symm.trans hj)
      cases hcc
      rw [hF] at hFj
      cases hFj
  · intro r hr hri
    have hr' : r ∈ (runStepsGo a "run" env plan.steps 0 {}).records := hr
    rcases runStepsGo_records a "run" env plan.steps 0 {} r hr' with hin | ⟨j, hj1, -, hj3⟩
    · simp [LoopState.records] at hin
    · have hji : j = i := by omega
      subst hji
      exact hj3 c hstep hA hF
  · rintro ⟨r, hr, hri⟩
    have hr' : r ∈ (runStepsGo a "run" env plan.steps 0 {}).records := hr
    have hstop := runStepsGo_blocked_stop a "run" env plan.steps 0 {} i c hstep hA hF
      ⟨r, hr', by simp [LoopState.records], by simpa using hri⟩
    exact ⟨hstop.1, hstop.2⟩

/-- C1 witness: the one-step plan `cmd "git a && b"` under any environment
reaches the forbidden step, spawns nothing, and ends blocked with `-1`. -/
theorem C1_witness :
    (∀ p ∈ (runPlanInternal ⟨"p", [PlanStep.cmd "git a && b"]⟩ (fun _ => {}) true).spawned,
      p.1 ≠ 1) ∧
    (runPlanInternal ⟨"p", [PlanStep.cmd "git a && b"]⟩ (fun _ => {}) true).blocked_by_policy
      = true ∧
    (runPlanInternal ⟨"p", [PlanStep.cmd "git a && b"]⟩ (fun _ => {}) true).exitCode = -1 := by
  have h := C1_forbidden_cmd_blocked ⟨"p", [PlanStep.cmd "git a && b"]⟩ (fun _ => {}) true
    0 "git a && b" (by decide) (by decide) (by decide)
  exact ⟨h.1, (h.2.2 (by decide)).1, (h.2.2 (by decide)).2⟩

/-! ## C8: cancelRun -/

/-- C8: `cancelRun(runId)` returns false and has no effect when `runId` is
not the active run; when it is, it sets the plan's cancel flag, initiates
termination of the currently supervised child (when that child belongs to
this run), resolves any pending decision for the run as rejected and removes
it from the pending map, and emits `run:cancelled`. In the step loop, a
cancel flag observed at a loop head ends the run (`cancelled`, exit `-1`)
without executing the step, and every appended step record comes from a step
whose loop-head cancel check was false. -/
theorem C8_cancelRun (st : OrchState) (ρ : String) :
    (st.activePlanId ≠ some ρ → cancelRun st ρ = ⟨false, st, [], false, false⟩) ∧
    (st.activePlanId = some ρ →
      (cancelRun st ρ).returned = true ∧
      (cancelRun st ρ).st.activePlanCancelled = true ∧
      (st.activeRunId = some ρ →
        (cancelRun st ρ).terminatedChild = true ∧
        (cancelRun st ρ).st.activeRunCancelled = true) ∧
      (∀ pd ∈ (cancelRun st ρ).st.pendingDecisions, pd.1 ≠ ρ) ∧
      ((∃ pd ∈ st.pendingDecisions, pd.1 = ρ) → (cancelRun st ρ).resolvedRejected = true) ∧
      Event.runCancelled ∈ (cancelRun st ρ).events) ∧
    (∀ (a : Bool) (r : String) (env : Nat → StepEnv) (step : PlanStep)
        (rest : List PlanStep) (idx : Nat) (ls : LoopState),
      (env idx).cancelBeforeStep = true →
      runStepsGo a r env (step :: rest) idx ls =
        { ls with cancelled := true, lastExitCode := -1 }) ∧
    (∀ (a : Bool) (r : String) (env : Nat → StepEnv) (steps : List PlanStep)
        (idx : Nat) (ls : LoopState),
      ∀ rec ∈ (runStepsGo a r env steps idx ls).records,
        rec ∈ ls.records ∨
          ∃ j, rec.step_index = idx + j + 1 ∧ (env (idx + j)).cancelBeforeStep = false) := by
  refine ⟨?_, ?_, runStepsGo_cancel_head, ?_⟩
  · intro h
    unfold cancelRun
    rw [if_pos h]
  · intro h
    unfold cancelRun
    rw [if_neg (by simp [h])]
    dsimp only
    by_cases hrun : (st.activeRunId == some ρ) = true
    · rw [if_pos hrun]
      refine ⟨rfl, rfl, fun _ => ⟨hrun, rfl⟩, ?_, ?_, by simp⟩
      · intro pd hpd
        have := List.of_mem_filter hpd
        simpa using this
      · rintro ⟨pd, hpd, hpdρ⟩
        apply List.any_eq_true.mpr
        exact ⟨pd, hpd, by simp [hpdρ]⟩
    · rw [if_neg hrun]
      refine ⟨rfl, rfl, ?_, ?_, ?_, by simp⟩
      · intro hr
        exact absurd (by simp [hr]) hrun
      · intro pd hpd
        have := List.of_mem_filter hpd
        simpa using this
      · rintro ⟨pd, hpd, hpdρ⟩
        apply List.any_eq_true.mpr
        exact ⟨pd, hpd, by simp [hpdρ]⟩
  · intro a r env steps idx ls rec hrec
    rcases runStepsGo_records a r env steps idx ls rec hrec with h | ⟨j, hj1, hj2, -⟩
    · exact Or.inl h
    · exact Or.inr ⟨j, hj1, hj2⟩

/-- A concrete orchestrator state for the C8 witness: run `a` active with a
pending decision. -/
def c8State : OrchState :=
  { activePlanId := some "a", activeRunId := some "a",
    pendingDecisions := [("a", ["package.json"])] }

/-- C8 witness: a cancel against the wrong id is a no-op returning false; a
cancel against the active run sets the flags, terminates the child, rejects
the pending decision and emits the event; a set cancel flag stops the loop. -/
theorem C8_witness :
    cancelRun { activePlanId := some "a" } "b" =
      ⟨false, { activePlanId := some "a" }, [], false, false⟩ ∧
    (cancelRun c8State "a").returned = true ∧
    (cancelRun c8State "a").terminatedChild = true ∧
    (cancelRun c8State "a").resolvedRejected = true ∧
    runStepsGo true "run" (fun _ => { cancelBeforeStep := true })
        [PlanStep.note "hi"] 0 {} =
      { cancelled := true, lastExitCode := -1 } := by
  have h1 := (C8_cancelRun { activePlanId := some "a" } "b").1 (by decide)
  have h2 := (C8_cancelRun c8State "a").2.1 rfl
  have h3 := (C8_cancelRun {} "x").2.2.1 true "run" (fun _ => { cancelBeforeStep := true })
    (PlanStep.note "hi") [] 0 {} rfl
  exact ⟨h1, h2.1, (h2.2.2.1 rfl).1,
    h2.2.2.2.2.1 ⟨("a", ["package.json"]), by decide, rfl⟩, h3⟩

/-! ## Evaluation-record lemmas (executor steps) -/

theorem execStepCore_eval_fields (e : StepEnv) (lph : Bool) (ins : String) (k : Nat) :
    (execStepCore e lph ins k).evaluation.baseline_files = baselineFilesOf e ∧
    (execStepCore e lph ins k).evaluation.current_files = currentFilesOf e ∧
    (execStepCore e lph ins k).evaluation.changed_files =
      diffFromBaseline (baselineFilesOf e) (currentFilesOf e) ∧
    (execStepCore e lph ins k).evaluation.has_changes =
      !(diffFromBaseline (baselineFilesOf e) (currentFilesOf e)).isEmpty := by
  simp only [execStepCore]
  split
  · exact ⟨rfl, rfl, rfl, rfl⟩
  · split <;> exact ⟨rfl, rfl, rfl, rfl⟩

theorem execStepCore_suspicious (e : StepEnv) (lph : Bool) (ins : String) (k : Nat) :
    (execStepCore e lph ins k).evaluation.suspicious_no_change =
      ((runExecutorStreaming e.execRes e.applyRes).exitCode == 0 &&
        (diffFromBaseline (baselineFilesOf e) (currentFilesOf e)).isEmpty) := by
  simp only [execStepCore]
  split
  · next hno => simp
  · split
    · next hsusp => simpa [Bool.not_not] using hsusp.symm
    · next hsusp => simp

theorem execStepCore_noop (e : StepEnv) (lph : Bool) (ins : String) (k : Nat) :
    (execStepCore e lph ins k).evaluation.no_op =
      ((runExecutorStreaming e.execRes e.applyRes).exitCode == 0 && lph &&
        (diffFromBaseline (baselineFilesOf e) (currentFilesOf e)).isEmpty) := by
  simp only [execStepCore]
  split
  · next hno => simpa [Bool.not_not] using hno.symm
  · next hno =>
    simp only [Bool.not_eq_true, Bool.not_not] at hno
    split <;> exact hno.symm

theorem execStepCore_retried (e : StepEnv) (lph : Bool) (ins : String) (k : Nat) :
    (execStepCore e lph ins k).evaluation.retried =
      ((runExecutorStreaming e.execRes e.applyRes).exitCode == 0 &&
        (diffFromBaseline (baselineFilesOf e) (currentFilesOf e)).isEmpty && !lph) := by
  simp only [execStepCore]
  split
  · next hno =>
    simp only [Bool.not_not, Bool.and_eq_true] at hno
    simp [hno.1.1, hno.1.2, hno.2]
  · next hno =>
    split
    · next hsusp =>
      simp only [Bool.not_not, Bool.and_eq_true] at hsusp
      simp only [Bool.not_eq_true, Bool.not_not] at hno
      have hlph : lph = false := by
        cases hl : lph
        · rfl
        · rw [hsusp.1, hl, hsusp.2] at hno
          cases hno
      simp [hsusp.1, hsusp.2, hlph]
    · next hsusp =>
      simp only [Bool.not_eq_true, Bool.not_not] at hsusp
      simp [hsusp]

theorem execStepCore_finalResult (e : StepEnv) (lph : Bool) (ins : String) (k : Nat) :
    ((execStepCore e lph ins k).evaluation.retried = true →
      (execStepCore e lph ins k).finalResult =
        runExecutorStreaming e.retryExecRes e.retryApplyRes) ∧
    ((execStepCore e lph ins k).evaluation.retried = false →
      (execStepCore e lph ins k).finalResult =
        runExecutorStreaming e.execRes e.applyRes) := by
  simp only [execStepCore]
  split
  · exact ⟨(fun h => nomatch h), (fun _ => rfl)⟩
  · split
    · exact ⟨(fun _ => rfl), (fun h => nomatch h)⟩
    · exact ⟨(fun h => nomatch h), (fun _ => rfl)⟩

theorem execStepCore_branches (e : StepEnv) (lph : Bool) (ins : String) (k : Nat) :
    ((execStepCore e lph ins k).evaluation.no_op = true →
      (execStepCore e lph ins k).invocations = [ins] ∧
      (execStepCore e lph ins k).noOpLogs =
        (if e.noOpGrep.stdout.isEmpty then [] else [e.noOpGrep.stdout]) ++
        (if e.noOpGrep.stderr.isEmpty then [] else [e.noOpGrep.stderr])) ∧
    ((execStepCore e lph ins k).evaluation.no_op = false →
      (execStepCore e lph ins k).evaluation.suspicious_no_change = true →
      (execStepCore e lph ins k).invocations = [ins, buildRetryInstructions] ∧
      (execStepCore e lph ins k).evaluation.retry_result =
        some { exit_code := (runExecutorStreaming e.retryExecRes e.retryApplyRes).exitCode,
               baseline_files := baselineFilesOf e,
               current_files := retryDiffFilesOf e,
               changed_files := diffFromBaseline (baselineFilesOf e) (retryDiffFilesOf e),
               has_changes :=
                 !(diffFromBaseline (baselineFilesOf e) (retryDiffFilesOf e)).isEmpty }) := by
  simp only [execStepCore]
  split
  · exact ⟨(fun _ => ⟨rfl, rfl⟩), (fun h => nomatch h)⟩
  · split
    · exact ⟨(fun h => nomatch h), (fun _ _ => ⟨rfl, rfl⟩)⟩
    · next hsusp =>
      exact ⟨(fun h => nomatch h), (fun _ h => absurd h hsusp)⟩

/-! ## C3: suspicious_no_change iff empty baseline diff -/

/-- C3: for every executor step, the evaluation's `changed_files` is the set
difference `current_files \ baseline_files` preserving the order of
`current_files` (a filter of `current_files`); `has_changes` holds iff
`changed_files` is non-empty; and whenever the step's final exit code is 0,
`suspicious_no_change` holds iff `changed_files` is empty. -/
theorem C3_suspicious_no_change_iff (e : StepEnv) (lph : Bool) (ins : String) (k : Nat) :
    (execStepCore e lph ins k).evaluation.changed_files =
      diffFromBaseline (execStepCore e lph ins k).evaluation.baseline_files
        (execStepCore e lph ins k).evaluation.current_files ∧
    (execStepCore e lph ins k).evaluation.changed_files =
      (execStepCore e lph ins k).evaluation.current_files.filter
        (fun f => !((execStepCore e lph ins k).evaluation.baseline_files.contains f)) ∧
    ((execStepCore e lph ins k).evaluation.has_changes = true ↔
      (execStepCore e lph ins k).evaluation.changed_files ≠ []) ∧
    ((execStepCore e lph ins k).finalResult.exitCode = 0 →
      ((execStepCore e lph ins k).evaluation.suspicious_no_change = true ↔
        (execStepCore e lph ins k).evaluation.changed_files = [])) := by
  obtain ⟨hb, hc, hch, hhas⟩ := execStepCore_eval_fields e lph ins k
  refine ⟨by rw [hb, hc, hch], ?_, ?_, ?_⟩
  · rw [hb, hc, hch]
    rfl
  · rw [hhas, hch]
    simp [List.isEmpty_iff]
  · intro hexit
    rw [execStepCore_suspicious, hch]
    cases hr : (execStepCore e lph ins k).evaluation.retried with
    | true =>
      have h := execStepCore_retried e lph ins k
      rw [hr] at h
      have h' := h.symm
      simp only [Bool.and_eq_true] at h'
      rw [h'.1.1, h'.1.2]
      simp [List.isEmpty_iff.mp h'.1.2]
    | false =>
      have hfin := (execStepCore_finalResult e lph ins k).2 hr
      rw [hfin] at hexit
      have he0 : ((runExecutorStreaming e.execRes e.applyRes).exitCode == 0) = true := by
        simp [hexit]
      rw [he0]
      simp [List.isEmpty_iff]

/-- C3 witness at a concrete environment: executor and retry exit 0 with no
diff anywhere, so the final exit code is 0, `suspicious_no_change` holds and
`changed_files` is empty. -/
theorem C3_witness :
    (execStepCore {} false "i" 1).finalResult.exitCode = 0 ∧
    ((execStepCore {} false "i" 1).evaluation.suspicious_no_change = true ↔
      (execStepCore {} false "i" 1).evaluation.changed_files = []) :=
  ⟨by decide, (C3_suspicious_no_change_iff {} false "i" 1).2.2.2 (by decide)⟩

/-! ## C4: no-op detection and the single retry -/

/-- C4 (amended): `no_op` implies `suspicious_no_change` and that the
precheck-hit flag (left by the immediately preceding cmd step, cleared by
note and executor steps — last conjunct) was set; when `suspicious_no_change`
holds and `no_op` does not, the executor tool is invoked exactly once more
with the fixed minimal-change retry instructions and `retry_result` —
including `has_changes` — is computed from a fresh `git diff --name-only`
query; when `no_op` holds, no retry invocation occurs and the stdout/stderr
of a freshly re-run precheck grep is logged instead (not the previous
precheck step's captured stdout). -/
theorem C4_noop_and_retry (e : StepEnv) (lph : Bool) (ins : String) (k : Nat) :
    ((execStepCore e lph ins k).evaluation.no_op = true →
      (execStepCore e lph ins k).evaluation.suspicious_no_change = true ∧ lph = true) ∧
    ((execStepCore e lph ins k).evaluation.suspicious_no_change = true →
      (execStepCore e lph ins k).evaluation.no_op = false →
      (execStepCore e lph ins k).invocations = [ins, buildRetryInstructions] ∧
      (execStepCore e lph ins k).evaluation.retry_result =
        some { exit_code := (runExecutorStreaming e.retryExecRes e.retryApplyRes).exitCode,
               baseline_files := baselineFilesOf e,
               current_files := retryDiffFilesOf e,
               changed_files := diffFromBaseline (baselineFilesOf e) (retryDiffFilesOf e),
               has_changes :=
                 !(diffFromBaseline (baselineFilesOf e) (retryDiffFilesOf e)).isEmpty }) ∧
    ((execStepCore e lph ins k).evaluation.no_op = true →
      (execStepCore e lph ins k).invocations = [ins] ∧
      (execStepCore e lph ins k).noOpLogs =
        (if e.noOpGrep.stdout.isEmpty then [] else [e.noOpGrep.stdout]) ++
        (if e.noOpGrep.stderr.isEmpty then [] else [e.noOpGrep.stderr])) ∧
    (∀ (a : Bool) (ρ : String) (e' : StepEnv) (idx : Nat) (step : PlanStep) (st : LoopState),
      (processStep a ρ e' idx step st).2 = true →
      (processStep a ρ e' idx step st).1.lastPrecheckHit = precheckFlagOf step e') := by
  refine ⟨?_, ?_, (execStepCore_branches e lph ins k).1, processStep_precheckFlag⟩
  · intro hno
    rw [execStepCore_noop] at hno
    simp only [Bool.and_eq_true] at hno
    refine ⟨?_, hno.1.2⟩
    rw [execStepCore_suspicious]
    simp [hno.1.1, hno.2]
  · intro hsusp hno
    exact (execStepCore_branches e lph ins k).2 hno hsusp

/-- The canonical precheck probe command used by the C4 counterexample. -/
def precheckProbeCmd : String := "git grep -n \"Clear Logs\" -- src/renderer/App.tsx"

/-- The two-step plan of the C4 counterexample: a precheck cmd followed by
an executor step. -/
def c4plan : TaskPlan :=
  ⟨"p", [PlanStep.cmd precheckProbeCmd, PlanStep.executor "codex" "add X"]⟩

/-- The C4 counterexample environment: the precheck step's child prints
`A-match\n` and exits 0; the executor step exits 0 with no diff anywhere,
and the freshly re-run no-op grep prints `B-fresh`. -/
def c4env : Nat → StepEnv := fun i =>
  if i = 0 then { cmdResult := { exitCode := 0, stdout := "A-match\n" } }
  else { noOpGrep := { stdout := "B-fresh" } }

/-- C4 counterexample: the claim says that when `no_op` holds "the precheck
stdout is logged instead". In this run the executor step is classified
`no_op` after a precheck whose captured stdout was `A-match\n`, yet the
no-op branch logs exactly the output of a *freshly re-run* grep
(`B-fresh`); the captured precheck stdout is not what is logged. -/
theorem C4_counterexample :
    ((runPlanInternal c4plan c4env true).steps.map
      (fun r => r.evaluation.map (fun ev => ev.no_op))) = [none, some true] ∧
    (runPlanInternal c4plan c4env true).noOpLogs = ["B-fresh"] ∧
    ¬ ("A-match\n" ∈ (runPlanInternal c4plan c4env true).noOpLogs) ∧
    ¬ ("A-match" ∈ (runPlanInternal c4plan c4env true).noOpLogs) := by
  refine ⟨by decide, by decide, by decide, by decide⟩

/-- C4 witness: with the precheck flag set and no diff the step is `no_op`
and only the original invocation happens; with the flag clear it is
`suspicious_no_change` and exactly one retry with the fixed instructions is
invoked. -/
theorem C4_witness :
    (execStepCore {} true "i" 1).evaluation.no_op = true ∧
    (execStepCore {} true "i" 1).evaluation.suspicious_no_change = true ∧
    (execStepCore {} true "i" 1).invocations = ["i"] ∧
    (execStepCore {} false "i" 1).evaluation.suspicious_no_change = true ∧
    (execStepCore {} false "i" 1).evaluation.no_op = false ∧
    (execStepCore {} false "i" 1).invocations = ["i", buildRetryInstructions] :=
  ⟨by decide,
   ((C4_noop_and_retry {} true "i" 1).1 (by decide)).1,
   ((C4_noop_and_retry {} true "i" 1).2.2.1 (by decide)).1,
   by decide, by decide,
   ((C4_noop_and_retry {} false "i" 1).2.1 (by decide) (by decide)).1⟩

/-- A schema- and policy-valid plan whose cmd step contains `&&`, used by
the C9 witness. -/
def forbiddenPlan : TaskPlan := ⟨"p", [PlanStep.note "n", PlanStep.cmd "git a && b"]⟩

/-- C9 witness: when both completion calls return `forbiddenPlan`, exactly
two calls are made — the second with the reminder appended — and the
request fails with the fixed forbidden-operators error. -/
theorem C9_witness :
    (generatePlanFromRequirement (fun _ => .plan forbiddenPlan) "BASE").prompts =
      ["BASE", "BASE" ++ "\n" ++ retryHint] ∧
    (generatePlanFromRequirement (fun _ => .plan forbiddenPlan) "BASE").result =
      .error "Planner output includes forbidden shell operators in cmd steps. Remove shell operators manually and retry." := by
  have h := C9_planner_retry.1 (fun _ => .plan forbiddenPlan) "BASE" forbiddenPlan rfl
    (by decide) (by decide)
  exact ⟨h.1, h.2 forbiddenPlan rfl (by decide) (by decide)⟩

/-- C7 witness: a non-matching change produces no event and leaves the
pending map unchanged; a dependency change emits the log line and the
`run:decision` payload. -/
theorem C7_witness :
    maybeRequestDecision (.ok "" "" "a.txt") "run" [] true .approved = ⟨none, [], []⟩ ∧
    (maybeRequestDecision (.ok "" "" "a/package.json") "run" [] true .approved).events =
      [Event.runOutput "system"
        ("Dependency changes detected. Awaiting approval: " ++
          String.intercalate ", " (matchDependencyFiles (parseNameOnly "a/package.json")) ++
          "\n"),
       Event.runDecision (matchDependencyFiles (parseNameOnly "a/package.json"))] :=
  ⟨C7_decision_gate.2.2.1 "" "" "a.txt" "run" [] true .approved (by decide),
   C7_decision_gate.2.2.2 "" "" "a/package.json" "run" [] true .approved (by decide)⟩

end Orchestrator
